import Mathlib

/-!
# Verification of the solution.js graph-resolution / templating engine

Shallow embedding of the core of the repository: the topological
sequencer, the dependency resolver (createItemTemplate), the reference
templatizer round-trip, the group deployment step, the web-map layer-id
lookup hash, and the resource-copy helper.

Conventions of the embedding:
* JavaScript is single-threaded and cooperative; "concurrency" is only
  multiple outstanding network requests.  External collaborators (the
  REST API) are modelled as oracle functions from item id to an
  `Except Unit` outcome, and the sequential embedding runs the
  resolutions in discovery order (outcomes are determined by the oracle,
  so the observable results agree with the JS promise semantics).
* Fallible code returns `Except`.
* JS strings are modelled as `String` where only equality matters and as
  `List Char` where character-level rewriting is performed.
-/

namespace SolutionJS

/-! ## Topological Sequencer

The implementation of the sequencer (function `topologicallySortItems`
of src/solution.ts) is not part of the source snapshot; only its test
suite is (src/unnamed/part_004, lines 471-558).  The definitions in this
section are therefore modelled from the spec (section 4.3): a
deterministic Kahn-style topological sort that repeatedly removes a
zero-in-degree node (first eligible node in input order, so ties keep
input order), ignores dependencies absent from the input set, and fails
fast with the distinct error "Cyclical dependency graph detected" (the
error message fixed by the test suite) when no progress is possible. -/

/-- A dependency graph: the JS object passed to the sequencer, i.e. an
insertion-ordered association list from item id to its list of
dependency ids.  JS object keys are distinct, which theorems state as a
`Nodup` hypothesis. -/
abbrev Graph := List (String × List String)

/-- The item ids of the graph, in input (insertion) order. -/
def keysOf (g : Graph) : List String := g.map Prod.fst

/-- The raw dependency list of an id (`items[vertexId].dependencies`);
empty for an id that is not a key. -/
def depsOf (g : Graph) (k : String) : List String :=
  match g.find? (fun p => p.1 == k) with
  | some p => p.2
  | none => []

/-- Modelled from the spec: "dangling external references are ignored
for ordering purposes" -- the dependencies of `k` that exist in the
input set. -/
def presentDeps (g : Graph) (k : String) : List String :=
  (depsOf g k).filter (fun d => (keysOf g).contains d)

/-- A node is eligible for removal when all of its present dependencies
have already been emitted. -/
def eligible (g : Graph) (done : List String) (k : String) : Bool :=
  (presentDeps g k).all (fun d => done.contains d)

/-- The distinct cyclic-graph error message, fixed by the test suite in
src/unnamed/part_004. -/
def cycleMsg : String := "Cyclical dependency graph detected"

/-- Modelled from the spec: the Kahn-style main loop.  `remaining` are
the nodes not yet emitted, `done` the emitted prefix (in output order).
Each round removes the first eligible remaining node (stable tie-break);
if none is eligible the graph is cyclic. -/
def kahnLoop (g : Graph) (remaining done : List String) :
    Except String (List String) :=
  if hne : remaining = [] then Except.ok done
  else
    match hfind : remaining.find? (eligible g done) with
    | none => Except.error cycleMsg
    | some k =>
      have hk : k ∈ remaining := List.mem_of_find?_eq_some hfind
      kahnLoop g (remaining.erase k) (done ++ [k])
termination_by remaining.length
decreasing_by
  have h1 : (remaining.erase k).length = remaining.length - 1 :=
    List.length_erase_of_mem hk
  have h2 : 0 < remaining.length := List.length_pos.mpr hne
  omega

/-- Modelled from the spec (section 4.3): the Topological Sequencer.
Orders the item ids of `g` so that every present dependency precedes its
dependent, or fails with the cyclic-graph error. -/
def topologicallySortItems (g : Graph) : Except String (List String) :=
  kahnLoop g (keysOf g) []

/-- `a` declares a dependency on `b` and `b` exists in the input set. -/
def Edge (g : Graph) (a b : String) : Prop := b ∈ presentDeps g a

/-- A graph is acyclic when no node reaches itself through a nonempty
chain of dependency edges. -/
def Acyclic (g : Graph) : Prop :=
  ¬ ∃ x, Relation.TransGen (Edge g) x x

theorem kahnLoop_nil (g : Graph) (done : List String) :
    kahnLoop g [] done = Except.ok done := by
  unfold kahnLoop; simp

theorem kahnLoop_none {g : Graph} {remaining done : List String}
    (hne : remaining ≠ []) (h : remaining.find? (eligible g done) = none) :
    kahnLoop g remaining done = Except.error cycleMsg := by
  unfold kahnLoop
  rw [dif_neg hne]
  split <;> simp_all

theorem kahnLoop_some {g : Graph} {remaining done : List String} {k : String}
    (hne : remaining ≠ []) (h : remaining.find? (eligible g done) = some k) :
    kahnLoop g remaining done = kahnLoop g (remaining.erase k) (done ++ [k]) := by
  conv_lhs => unfold kahnLoop
  rw [dif_neg hne]
  split <;> simp_all

theorem kahnLoop_perm {g : Graph} {remaining done l : List String}
    (h : kahnLoop g remaining done = Except.ok l) :
    l.Perm (done ++ remaining) := by
  induction remaining, done using kahnLoop.induct g with
  | case1 done =>
    rw [kahnLoop_nil] at h
    simpa using (Except.ok.inj h) ▸ List.Perm.refl _
  | case2 remaining done hne hfind =>
    rw [kahnLoop_none hne hfind] at h
    exact absurd h (by simp)
  | case3 remaining done hne k hfind hk ih =>
    rw [kahnLoop_some hne hfind] at h
    have h1 := ih h
    have h2 : (done ++ [k] ++ remaining.erase k).Perm (done ++ remaining) := by
      rw [List.append_assoc]
      exact ((List.perm_cons_erase hk).append_left done).symm
    exact h1.trans h2

/-- Every emitted node has all of its present dependencies strictly
earlier in the list. -/
def RespectsDeps (g : Graph) (l : List String) : Prop :=
  ∀ n a, l[n]? = some a → ∀ d ∈ presentDeps g a, d ∈ l.take n

theorem respectsDeps_append {g : Graph} {done : List String} {k : String}
    (hd : RespectsDeps g done) (hk : ∀ d ∈ presentDeps g k, d ∈ done) :
    RespectsDeps g (done ++ [k]) := by
  intro n a hget d hdep
  rcases Nat.lt_trichotomy n done.length with hlt | heq | hgt
  · rw [List.getElem?_append_left hlt] at hget
    rw [List.take_append_of_le_length hlt.le]
    exact hd n a hget d hdep
  · subst heq
    rw [List.getElem?_append_right le_rfl] at hget
    simp at hget
    subst hget
    rw [List.take_left]
    exact hk d hdep
  · have hnone : (done ++ [k])[n]? = none := by
      apply List.getElem?_eq_none
      simp; omega
    rw [hnone] at hget; cases hget

theorem kahnLoop_resp {g : Graph} {remaining done l : List String}
    (hd : RespectsDeps g done)
    (h : kahnLoop g remaining done = Except.ok l) : RespectsDeps g l := by
  induction remaining, done using kahnLoop.induct g with
  | case1 done =>
    rw [kahnLoop_nil] at h
    exact Except.ok.inj h ▸ hd
  | case2 remaining done hne hfind =>
    rw [kahnLoop_none hne hfind] at h
    exact absurd h (by simp)
  | case3 remaining done hne k hfind hk ih =>
    rw [kahnLoop_some hne hfind] at h
    apply ih _ h
    apply respectsDeps_append hd
    intro d hdep
    have helig : eligible g done k = true := List.find?_some hfind
    have := (List.all_eq_true.mp helig) d hdep
    simpa using this

theorem Edge.mem_keys_left {g : Graph} {a b : String} (h : Edge g a b) :
    a ∈ keysOf g := by
  unfold Edge presentDeps depsOf at h
  by_contra hcon
  cases hfind : g.find? (fun p => p.1 == a) with
  | none => rw [hfind] at h; simp at h
  | some p =>
    have hp : p ∈ g := List.mem_of_find?_eq_some hfind
    have hpa : p.1 = a := by simpa using List.find?_some hfind
    exact hcon (hpa ▸ List.mem_map_of_mem Prod.fst hp)

theorem Edge.mem_keys_right {g : Graph} {a b : String} (h : Edge g a b) :
    b ∈ keysOf g := by
  unfold Edge presentDeps at h
  simpa using List.of_mem_filter h

/-- Pigeonhole: a nonempty finite set in which every node has a
successor inside the set contains a cycle. -/
theorem cycle_of_all_successors {g : Graph} {S : List String} (hne : S ≠ [])
    (h : ∀ x ∈ S, ∃ y ∈ S, Edge g x y) :
    ∃ x, Relation.TransGen (Edge g) x x := by
  obtain ⟨x0, hx0⟩ := List.exists_mem_of_ne_nil S hne
  classical
  let f : String → String := fun x => if hx : x ∈ S then (h x hx).choose else x
  have hfmem : ∀ x ∈ S, f x ∈ S := by
    intro x hx
    simp only [f, dif_pos hx]
    exact (h x hx).choose_spec.1
  have hfedge : ∀ x ∈ S, Edge g x (f x) := by
    intro x hx
    simp only [f, dif_pos hx]
    exact (h x hx).choose_spec.2
  let seq : Nat → String := fun n => f^[n] x0
  have hseq : ∀ n, seq n ∈ S := by
    intro n; induction n with
    | zero => simpa [seq] using hx0
    | succ m ih =>
      have hs : seq (m + 1) = f (seq m) := Function.iterate_succ_apply' f m x0
      rw [hs]; exact hfmem _ ih
  have hstep : ∀ n, Edge g (seq n) (seq (n + 1)) := by
    intro n
    have hs : seq (n + 1) = f (seq n) := Function.iterate_succ_apply' f n x0
    rw [hs]; exact hfedge _ (hseq n)
  have htg : ∀ i j, i < j → Relation.TransGen (Edge g) (seq i) (seq j) := by
    intro i j hij
    induction j with
    | zero => omega
    | succ m ih =>
      rcases Nat.lt_succ_iff_lt_or_eq.mp hij with hlt | heq
      · exact (ih hlt).tail (hstep m)
      · subst heq; exact Relation.TransGen.single (hstep i)
  have hcard : S.toFinset.card < (Finset.range (S.toFinset.card + 1)).card := by
    simp
  have hmaps : ∀ n ∈ Finset.range (S.toFinset.card + 1), seq n ∈ S.toFinset := by
    intro n _; simpa using hseq n
  obtain ⟨i, _, j, _, hij, heq⟩ :=
    Finset.exists_ne_map_eq_of_card_lt_of_maps_to hcard hmaps
  rcases lt_or_gt_of_ne hij with hlt | hgt
  · exact ⟨seq i, heq ▸ htg i j hlt⟩
  · exact ⟨seq j, heq ▸ htg j i hgt⟩

theorem kahnLoop_ok_of_acyclic {g : Graph} (hac : Acyclic g) :
    ∀ remaining done : List String,
      (∀ k ∈ remaining, ∀ d ∈ presentDeps g k, d ∈ done ∨ d ∈ remaining) →
      ∃ l, kahnLoop g remaining done = Except.ok l := by
  intro remaining done
  induction remaining, done using kahnLoop.induct g with
  | case1 done => exact fun _ => ⟨done, kahnLoop_nil g done⟩
  | case2 remaining done hne hfind =>
    intro hinv
    exfalso
    apply hac
    apply cycle_of_all_successors hne
    intro x hx
    have hnel : ¬ eligible g done x = true := (List.find?_eq_none.mp hfind) x hx
    have hex : ∃ d ∈ presentDeps g x, d ∉ done := by
      by_contra hcon
      push_neg at hcon
      apply hnel
      unfold eligible
      rw [List.all_eq_true]
      intro d hd
      simpa using hcon d hd
    obtain ⟨d, hd, hdnd⟩ := hex
    refine ⟨d, ?_, hd⟩
    rcases hinv x hx d hd with hdone | hrem
    · exact absurd hdone hdnd
    · exact hrem
  | case3 remaining done hne k hfind hk ih =>
    intro hinv
    rw [kahnLoop_some hne hfind]
    apply ih
    intro k2 hk2 d hd
    have hk2' : k2 ∈ remaining := List.mem_of_mem_erase hk2
    rcases hinv k2 hk2' d hd with hdone | hrem
    · left; simp [hdone]
    · by_cases hdk : d = k
      · left; simp [hdk]
      · right; exact (List.mem_erase_of_ne hdk).mpr hrem

theorem indexOf_eq_of_getElem? {l : List String} {n : Nat} {a : String}
    (hnd : l.Nodup) (h : l[n]? = some a) : l.indexOf a = n := by
  induction l generalizing n with
  | nil => simp at h
  | cons x xs ih =>
    cases n with
    | zero =>
      simp at h
      subst h
      simp [List.indexOf_cons_self]
    | succ m =>
      simp at h
      have hmem : a ∈ xs := by
        obtain ⟨hlt, rfl⟩ := List.getElem?_eq_some.mp h
        exact List.getElem_mem hlt
      have hxa : x ≠ a := by
        rintro rfl
        exact (List.nodup_cons.mp hnd).1 hmem
      rw [List.indexOf_cons_ne _ hxa]
      rw [ih (List.nodup_cons.mp hnd).2 h]

theorem indexOf_lt_of_mem_take {l : List String} {n : Nat} {d : String}
    (h : d ∈ l.take n) : l.indexOf d < n := by
  induction l generalizing n with
  | nil => simp at h
  | cons x xs ih =>
    cases n with
    | zero => simp at h
    | succ m =>
      rw [List.take_succ_cons] at h
      by_cases hxd : x = d
      · subst hxd; simp [List.indexOf_cons_self]
      · rcases List.mem_cons.mp h with heq | hmem
        · exact absurd heq.symm hxd
        · rw [List.indexOf_cons_ne _ hxd]
          exact Nat.succ_lt_succ (ih hmem)

theorem sort_result_cases (g : Graph) :
    (∃ l, topologicallySortItems g = Except.ok l) ∨
      topologicallySortItems g = Except.error cycleMsg := by
  unfold topologicallySortItems
  generalize keysOf g = remaining
  generalize ([] : List String) = done
  induction remaining, done using kahnLoop.induct g with
  | case1 done => exact Or.inl ⟨done, kahnLoop_nil g done⟩
  | case2 remaining done hne hfind => exact Or.inr (kahnLoop_none hne hfind)
  | case3 remaining done hne k hfind hk ih =>
    rw [kahnLoop_some hne hfind]
    exact ih

theorem edge_indexOf_lt {g : Graph} {l : List String} (hresp : RespectsDeps g l)
    (hlnd : l.Nodup) (hmem : ∀ a, a ∈ keysOf g → a ∈ l)
    {a b : String} (he : Edge g a b) : l.indexOf b < l.indexOf a := by
  have ha : a ∈ l := hmem a he.mem_keys_left
  obtain ⟨n, hn⟩ := List.getElem?_of_mem ha
  have hidx : l.indexOf a = n := indexOf_eq_of_getElem? hlnd hn
  have hbtake : b ∈ l.take n := hresp n a hn b he
  have := indexOf_lt_of_mem_take hbtake
  omega

theorem acyclic_of_sort_ok {g : Graph} {l : List String}
    (hnd : (keysOf g).Nodup) (h : topologicallySortItems g = Except.ok l) :
    Acyclic g := by
  have hperm : l.Perm (keysOf g) := by
    simpa using kahnLoop_perm h
  have hresp : RespectsDeps g l := by
    apply kahnLoop_resp _ h
    intro n a hget
    simp at hget
  have hlnd : l.Nodup := hperm.nodup_iff.mpr hnd
  rintro ⟨x, hx⟩
  have hmem : ∀ a, a ∈ keysOf g → a ∈ l := fun a ha => hperm.mem_iff.mpr ha
  have hdec : ∀ a b, Relation.TransGen (Edge g) a b →
      l.indexOf b < l.indexOf a := by
    intro a b htg
    induction htg with
    | single h1 => exact edge_indexOf_lt hresp hlnd hmem h1
    | tail _ hbc ih => exact lt_trans (edge_indexOf_lt hresp hlnd hmem hbc) ih
  exact absurd (hdec x x hx) (lt_irrefl _)

/-- C1: for every dependency graph without cycles, the Topological
Sequencer succeeds and returns a permutation of the input item ids in
which every dependency that exists in the input set appears strictly
before its dependent (absent dependencies are ignored for ordering), and
the sort is deterministic (a pure function of its input). -/
theorem topo_sort_acyclic_correct (g : Graph) (hnd : (keysOf g).Nodup)
    (hac : Acyclic g) :
    ∃ l, topologicallySortItems g = Except.ok l ∧ l.Perm (keysOf g) ∧
      (∀ a ∈ keysOf g, ∀ d ∈ presentDeps g a, l.indexOf d < l.indexOf a) ∧
      topologicallySortItems g = topologicallySortItems g := by
  obtain ⟨l, hok⟩ := kahnLoop_ok_of_acyclic hac (keysOf g) []
    (by
      intro k hk d hd
      right
      exact (Edge.mem_keys_right (g := g) (a := k) hd))
  have hperm : l.Perm (keysOf g) := by simpa using kahnLoop_perm hok
  have hresp : RespectsDeps g l := by
    apply kahnLoop_resp _ hok
    intro n a hget
    simp at hget
  have hlnd : l.Nodup := hperm.nodup_iff.mpr hnd
  refine ⟨l, hok, hperm, ?_, rfl⟩
  intro a _ d hd
  exact edge_indexOf_lt hresp hlnd (fun x hx => hperm.mem_iff.mpr hx) hd

/-- C2: for every dependency graph containing a cycle (including a
single self-referencing node), the Topological Sequencer fails with the
distinct error "Cyclical dependency graph detected" and returns no
ordering, partial or otherwise. -/
theorem topo_sort_cyclic_error (g : Graph) (hnd : (keysOf g).Nodup)
    (hcyc : ∃ x, Relation.TransGen (Edge g) x x) :
    topologicallySortItems g = Except.error cycleMsg := by
  rcases sort_result_cases g with ⟨l, hok⟩ | herr
  · exact absurd hcyc (acyclic_of_sort_ok hnd hok)
  · exact herr

/-- A graph that admits a rank function decreasing along edges is
acyclic (used to certify concrete acyclic inputs). -/
theorem acyclic_of_rank {g : Graph} (f : String → Nat)
    (h : ∀ a b, Edge g a b → f b < f a) : Acyclic g := by
  rintro ⟨x, hx⟩
  have hdec : ∀ a b, Relation.TransGen (Edge g) a b → f b < f a := by
    intro a b htg
    induction htg with
    | single h1 => exact h _ _ h1
    | tail _ hbc ih => exact lt_trans (h _ _ hbc) ih
  exact absurd (hdec x x hx) (lt_irrefl _)

/-- The diamond example from the spec, section 8. -/
def diamondG : Graph := [("a", ["b", "c"]), ("b", ["d"]), ("c", ["d"]), ("d", [])]

/-- Witness for C1 at the spec's diamond graph. -/
theorem topo_witness_c1 :
    (keysOf diamondG).Nodup ∧ Acyclic diamondG ∧
      (∃ l, topologicallySortItems diamondG = Except.ok l ∧
        l.Perm (keysOf diamondG) ∧
        (∀ a ∈ keysOf diamondG, ∀ d ∈ presentDeps diamondG a,
          l.indexOf d < l.indexOf a) ∧
        topologicallySortItems diamondG = topologicallySortItems diamondG) := by
  have hnd : (keysOf diamondG).Nodup := by decide
  have hac : Acyclic diamondG := by
    apply acyclic_of_rank
      (fun s => if s = "a" then 3 else if s = "d" then 0 else 1)
    intro a b he
    have ha : a ∈ keysOf diamondG := he.mem_keys_left
    have ha' : a = "a" ∨ a = "b" ∨ a = "c" ∨ a = "d" := by
      simpa [diamondG, keysOf] using ha
    rcases ha' with rfl | rfl | rfl | rfl
    · have hb : b ∈ presentDeps diamondG "a" := he
      have hev : presentDeps diamondG "a" = ["b", "c"] := by rfl
      rw [hev] at hb
      rcases List.mem_cons.mp hb with rfl | hb
      · decide
      · rcases List.mem_singleton.mp hb with rfl
        decide
    · have hb : b ∈ presentDeps diamondG "b" := he
      have hev : presentDeps diamondG "b" = ["d"] := by rfl
      rw [hev] at hb
      rcases List.mem_singleton.mp hb with rfl
      decide
    · have hb : b ∈ presentDeps diamondG "c" := he
      have hev : presentDeps diamondG "c" = ["d"] := by rfl
      rw [hev] at hb
      rcases List.mem_singleton.mp hb with rfl
      decide
    · have hb : b ∈ presentDeps diamondG "d" := he
      have hev : presentDeps diamondG "d" = [] := by rfl
      rw [hev] at hb
      simp at hb
  exact ⟨hnd, hac, topo_sort_acyclic_correct diamondG hnd hac⟩

/-- The single-node self-cycle example from the sequencer's test suite. -/
def selfCycleG : Graph := [("abc", []), ("def", ["def"]), ("ghi", [])]

/-- Witness for C2 at the test suite's self-cycle graph. -/
theorem topo_witness_c2 :
    (keysOf selfCycleG).Nodup ∧
      (∃ x, Relation.TransGen (Edge selfCycleG) x x) ∧
      topologicallySortItems selfCycleG = Except.error cycleMsg := by
  have hnd : (keysOf selfCycleG).Nodup := by decide
  have hcyc : ∃ x, Relation.TransGen (Edge selfCycleG) x x := by
    refine ⟨"def", Relation.TransGen.single ?_⟩
    show ("def" : String) ∈ presentDeps selfCycleG "def"
    decide
  exact ⟨hnd, hcyc, topo_sort_cyclic_error selfCycleG hnd hcyc⟩

/-! ## Template store and the placeholder-first insertion protocol

From src/packages/creator/src/createItemTemplate.ts: the synchronous
prefix of createItemTemplate (lines 204-216) checks the store and, when
the id is absent, pushes a placeholder before any asynchronous work;
_replaceTemplate (lines 612-623) later swaps the placeholder for the
populated template in place.  The helpers findTemplateInList,
findTemplateIndexInList and createPlaceholderTemplate live in
solution-common, which is not in the snapshot; they are modelled from
the spec (store keyed by source item id, placeholder = id known,
content not yet fetched). -/

structure ItemTemplate where
  itemId : String
  type : String
  dependencies : List String
deriving DecidableEq, Repr

def findTemplateInList (ts : List ItemTemplate) (id : String) :
    Option ItemTemplate :=
  ts.find? (fun t => t.itemId == id)

def createPlaceholderTemplate (id : String) : ItemTemplate :=
  { itemId := id, type := "", dependencies := [] }

def findTemplateIndexInList (ts : List ItemTemplate) (id : String) :
    Option Nat :=
  ts.findIdx? (fun t => t.itemId == id)

def replaceTemplate (ts : List ItemTemplate) (id : String)
    (t : ItemTemplate) : List ItemTemplate :=
  match findTemplateIndexInList ts id with
  | some i => ts.set i t
  | none => ts

def templateEntryStep (store : List ItemTemplate) (id : String) :
    List ItemTemplate :=
  if (findTemplateInList store id).isSome then store
  else store ++ [createPlaceholderTemplate id]

def countId (store : List ItemTemplate) (id : String) : Nat :=
  (store.filter (fun t => t.itemId == id)).length

def UniqueIds (store : List ItemTemplate) : Prop := ∀ x, countId store x ≤ 1

theorem countId_append (store store2 : List ItemTemplate) (x : String) :
    countId (store ++ store2) x = countId store x + countId store2 x := by
  simp [countId]

theorem countId_cons (y : ItemTemplate) (ys : List ItemTemplate) (x : String) :
    countId (y :: ys) x =
      (if y.itemId = x then 1 else 0) + countId ys x := by
  by_cases h : y.itemId = x <;> simp [countId, List.filter_cons, h] <;> omega

theorem countId_placeholder (id x : String) :
    countId [createPlaceholderTemplate id] x = if id = x then 1 else 0 := by
  by_cases h : id = x <;> simp [countId, createPlaceholderTemplate, h]

theorem findTemplateInList_isSome_iff (store : List ItemTemplate) (id : String) :
    (findTemplateInList store id).isSome ↔ 1 ≤ countId store id := by
  constructor
  · intro h
    obtain ⟨t, ht⟩ := Option.isSome_iff_exists.mp h
    have hmem : t ∈ store := List.mem_of_find?_eq_some ht
    have hpred : t.itemId = id := by simpa using List.find?_some ht
    have hf : t ∈ store.filter (fun t => t.itemId == id) :=
      List.mem_filter.mpr ⟨hmem, by simpa using hpred⟩
    have := List.length_pos.mpr (List.ne_nil_of_mem hf)
    simpa [countId] using this
  · intro h
    have hne : store.filter (fun t => t.itemId == id) ≠ [] := by
      intro hnil
      rw [countId, hnil] at h
      simp at h
    obtain ⟨t, ht⟩ := List.exists_mem_of_ne_nil _ hne
    have hmf := List.mem_filter.mp ht
    rw [findTemplateInList]
    rcases hfind : store.find? (fun t => t.itemId == id) with _ | u
    · rw [List.find?_eq_none] at hfind
      exact absurd (hmf.2) (hfind t hmf.1)
    · rw [hfind]
      rfl

theorem templateEntryStep_of_present {store : List ItemTemplate} {id : String}
    (h : (findTemplateInList store id).isSome) :
    templateEntryStep store id = store := by
  simp [templateEntryStep, h]

theorem templateEntryStep_count (store : List ItemTemplate) (id : String)
    (h : UniqueIds store) :
    UniqueIds (templateEntryStep store id) ∧
      countId (templateEntryStep store id) id = 1 := by
  by_cases hs : (findTemplateInList store id).isSome
  · rw [templateEntryStep_of_present hs]
    refine ⟨h, ?_⟩
    have h1 := (findTemplateInList_isSome_iff store id).mp hs
    have h2 := h id
    omega
  · have hz : countId store id = 0 := by
      by_contra hc
      exact hs ((findTemplateInList_isSome_iff store id).mpr (by omega))
    have hstep : templateEntryStep store id =
        store ++ [createPlaceholderTemplate id] := by
      simp [templateEntryStep, hs]
    rw [hstep]
    constructor
    · intro x
      rw [countId_append, countId_placeholder]
      by_cases hx : id = x
      · subst hx
        rw [if_pos rfl]
        omega
      · rw [if_neg hx]
        have := h x
        omega
    · rw [countId_append, countId_placeholder, if_pos rfl]
      omega

theorem templateEntryStep_count_other (store : List ItemTemplate)
    (o x : String) (hx : o ≠ x) :
    countId (templateEntryStep store o) x = countId store x := by
  by_cases hs : (findTemplateInList store o).isSome
  · rw [templateEntryStep_of_present hs]
  · have hstep : templateEntryStep store o =
        store ++ [createPlaceholderTemplate o] := by
      simp [templateEntryStep, hs]
    rw [hstep, countId_append, countId_placeholder, if_neg hx]
    omega

theorem countId_foldl_one (ops : List String) (store : List ItemTemplate)
    (id : String) (h : UniqueIds store) (h1 : countId store id = 1) :
    countId (ops.foldl templateEntryStep store) id = 1 := by
  induction ops generalizing store with
  | nil => simpa using h1
  | cons o os ih =>
    have hu := (templateEntryStep_count store o h).1
    have hcount : countId (templateEntryStep store o) id = 1 := by
      by_cases ho : o = id
      · subst ho
        exact (templateEntryStep_count store o h).2
      · rw [templateEntryStep_count_other store o id ho]
        exact h1
    simpa using ih (templateEntryStep store o) hu hcount

theorem countId_set {ts : List ItemTemplate} {i : Nat} {t : ItemTemplate}
    (hi : i < ts.length) (hsame : ts[i].itemId = t.itemId)
    (x : String) : countId (ts.set i t) x = countId ts x := by
  induction ts generalizing i with
  | nil => simp at hi
  | cons y ys ih =>
    cases i with
    | zero =>
      simp at hsame
      rw [List.set_cons_zero, countId_cons, countId_cons, hsame]
    | succ m =>
      have hm : m < ys.length := by simpa using hi
      have hsame' : ys[m].itemId = t.itemId := by simpa using hsame
      rw [List.set_cons_succ, countId_cons, countId_cons, ih hm hsame']

theorem replaceTemplate_count (ts : List ItemTemplate) (id : String)
    (t : ItemTemplate) (ht : t.itemId = id) (x : String) :
    countId (replaceTemplate ts id t) x = countId ts x := by
  rw [replaceTemplate]
  rcases hfind : findTemplateIndexInList ts id with _ | i
  · rfl
  · rw [findTemplateIndexInList] at hfind
    obtain ⟨hi, hp, _⟩ := List.findIdx?_eq_some_iff_getElem.mp hfind
    have hpi : ts[i].itemId = t.itemId := by
      rw [ht]
      simpa using hp
    exact countId_set hi hpi x

/-- C3 -/
theorem template_store_unique :
    (∀ store id, (findTemplateInList store id).isSome →
        templateEntryStep store id = store) ∧
    (∀ store id, UniqueIds store →
        UniqueIds (templateEntryStep store id) ∧
          countId (templateEntryStep store id) id = 1) ∧
    (∀ store id t, t.itemId = id → ∀ x,
        countId (replaceTemplate store id t) x = countId store x) ∧
    (∀ (ops : List String) (store : List ItemTemplate), UniqueIds store →
        UniqueIds (ops.foldl templateEntryStep store) ∧
          ∀ id ∈ ops, countId (ops.foldl templateEntryStep store) id = 1) := by
  refine ⟨fun store id h => templateEntryStep_of_present h,
    fun store id h => templateEntryStep_count store id h,
    fun store id t ht x => replaceTemplate_count store id t ht x, ?_⟩
  intro ops
  induction ops with
  | nil => exact fun store h => ⟨h, by simp⟩
  | cons o os ih =>
    intro store h
    have hstep := templateEntryStep_count store o h
    have hrec := ih (templateEntryStep store o) hstep.1
    refine ⟨by simpa using hrec.1, ?_⟩
    intro id hid
    rcases List.mem_cons.mp hid with rfl | hmem
    · have hone := (templateEntryStep_count store id h).2
      simpa using countId_foldl_one os (templateEntryStep store id) id hstep.1 hone
    · simpa using hrec.2 id hmem


/-- Witness for C3: starting from an empty store, discovering "y", "x",
then "y" again yields a store with exactly one entry for "y". -/
theorem template_store_witness_c3 :
    UniqueIds ([] : List ItemTemplate) ∧
      UniqueIds (["y", "x", "y"].foldl templateEntryStep []) ∧
      countId (["y", "x", "y"].foldl templateEntryStep []) "y" = 1 := by
  have hu : UniqueIds ([] : List ItemTemplate) := by
    intro x
    simp [countId]
  have h := template_store_unique.2.2.2 ["y", "x", "y"] [] hu
  exact ⟨hu, h.1, h.2 "y" (by simp)⟩

/-! ## Reference Templatizer: placeholder round trip

The templatizer helpers templatizeTerm and replaceInTemplate belong to
solution-common, which is not in the snapshot; src/packages/group/src/
group.ts calls them on the group id (lines 39-44) and on the whole
template at deploy time (lines 105-110).  They are modelled from the
spec, section 4.2: placeholder syntax `\x7b\x7b<key><.suffix>\x7d\x7d`,
and textual, total replacement of every placeholder occurrence in the
serialized payload. -/

/-- JS strings at character level. -/
abbrev Str := List Char

/-- Does `pat` occur at the head of `s`? -/
def startsWith : Str → Str → Bool
  | [], _ => true
  | _ :: _, [] => false
  | p :: ps, c :: cs => p == c && startsWith ps cs

/-- Does `pat` occur anywhere in `s` (as a contiguous segment)? -/
def containsSeg (s pat : Str) : Bool :=
  match s with
  | [] => startsWith pat []
  | _ :: rest => startsWith pat s || containsSeg rest pat

/-- `pat` occurs in `s` as a contiguous segment. -/
def OccursIn (pat s : Str) : Prop := ∃ a b, s = a ++ pat ++ b

/-- Replace every occurrence of a nonempty `pat` in the subject by
`rep`, scanning left to right (the JS global replace used for
placeholder substitution over serialized payloads). -/
def replaceAll (pat rep : Str) : Str → Str
  | [] => []
  | c :: rest =>
    if h : pat ≠ [] ∧ startsWith pat (c :: rest) then
      rep ++ replaceAll pat rep ((c :: rest).drop pat.length)
    else c :: replaceAll pat rep rest
termination_by s => s.length
decreasing_by
  · have hp : 0 < pat.length := List.length_pos.mpr h.1
    simp [List.length_drop]
    omega
  · simp

theorem startsWith_iff (pat s : Str) :
    startsWith pat s = true ↔ ∃ t, s = pat ++ t := by
  induction pat generalizing s with
  | nil => simp [startsWith]
  | cons p ps ih =>
    cases s with
    | nil =>
      simp [startsWith]
    | cons c cs =>
      rw [startsWith]
      constructor
      · intro h
        have h1 : p = c := by
          have := (Bool.and_eq_true _ _).mp h |>.1
          simpa using this
        have h2 := (Bool.and_eq_true _ _).mp h |>.2
        obtain ⟨t, ht⟩ := (ih cs).mp h2
        exact ⟨t, by simp [h1, ht]⟩
      · rintro ⟨t, ht⟩
        simp at ht
        rw [Bool.and_eq_true]
        refine ⟨by simp [ht.1], (ih cs).mpr ⟨t, ht.2⟩⟩

theorem startsWith_append_self (pat t : Str) :
    startsWith pat (pat ++ t) = true :=
  (startsWith_iff pat (pat ++ t)).mpr ⟨t, rfl⟩

theorem replaceAll_nil (pat rep : Str) : replaceAll pat rep [] = [] := by
  unfold replaceAll; rfl

theorem replaceAll_head_match {pat s : Str} (rep : Str) (hp : pat ≠ [])
    (hs : startsWith pat s = true) (hne : s ≠ []) :
    replaceAll pat rep s = rep ++ replaceAll pat rep (s.drop pat.length) := by
  cases s with
  | nil => exact absurd rfl hne
  | cons c cs =>
    conv_lhs => unfold replaceAll
    rw [dif_pos ⟨hp, hs⟩]

theorem replaceAll_head_miss {pat : Str} (rep : Str) {c : Char} {cs : Str}
    (h : ¬ (pat ≠ [] ∧ startsWith pat (c :: cs) = true)) :
    replaceAll pat rep (c :: cs) = c :: replaceAll pat rep cs := by
  conv_lhs => unfold replaceAll
  rw [dif_neg h]

theorem replaceAll_append_pat (pat rep t : Str) (hp : pat ≠ []) :
    replaceAll pat rep (pat ++ t) = rep ++ replaceAll pat rep t := by
  have hne : pat ++ t ≠ [] := by
    cases pat with
    | nil => exact absurd rfl hp
    | cons a as => simp
  rw [replaceAll_head_match rep hp (startsWith_append_self pat t) hne]
  congr 1
  rw [List.drop_left]

theorem occursIn_cons {pat t : Str} (c : Char) (h : OccursIn pat t) :
    OccursIn pat (c :: t) := by
  obtain ⟨a, b, rfl⟩ := h
  exact ⟨c :: a, b, rfl⟩

theorem occursIn_of_occursIn_replaceAll {pat rep : Str} (hp : pat ≠ []) :
    ∀ s : Str, OccursIn pat s → OccursIn rep (replaceAll pat rep s) := by
  have H : ∀ n, ∀ s : Str, s.length ≤ n → OccursIn pat s →
      OccursIn rep (replaceAll pat rep s) := by
    intro n
    induction n with
    | zero =>
      intro s hlen hocc
      have hs : s = [] := List.length_eq_zero.mp (Nat.le_zero.mp hlen)
      subst hs
      obtain ⟨a, b, hab⟩ := hocc
      cases pat with
      | nil => exact absurd rfl hp
      | cons p ps => simp at hab
    | succ m ih =>
      intro s hlen hocc
      cases s with
      | nil =>
        obtain ⟨a, b, hab⟩ := hocc
        cases pat with
        | nil => exact absurd rfl hp
        | cons p ps => simp at hab
      | cons c cs =>
        by_cases hm : startsWith pat (c :: cs) = true
        · rw [replaceAll_head_match rep hp hm (by simp)]
          exact ⟨[], replaceAll pat rep ((c :: cs).drop pat.length), rfl⟩
        · rw [replaceAll_head_miss rep (fun hand => hm hand.2)]
          obtain ⟨a, b, hab⟩ := hocc
          cases a with
          | nil =>
            exfalso
            apply hm
            rw [startsWith_iff]
            exact ⟨b, by simpa using hab⟩
          | cons a0 as =>
            have hcs : cs = as ++ pat ++ b := by
              simpa using congrArg List.tail hab
            apply occursIn_cons
            apply ih cs (by simpa using hlen)
            exact ⟨as, b, hcs⟩
  exact fun s => H s.length s le_rfl


theorem mem_replaceAll {pat rep : Str} {x : Char} :
    ∀ s : Str, x ∈ replaceAll pat rep s → x ∈ s ∨ x ∈ rep := by
  have H : ∀ n, ∀ s : Str, s.length ≤ n →
      x ∈ replaceAll pat rep s → x ∈ s ∨ x ∈ rep := by
    intro n
    induction n with
    | zero =>
      intro s hlen hx
      have hs : s = [] := List.length_eq_zero.mp (Nat.le_zero.mp hlen)
      subst hs
      rw [replaceAll_nil] at hx
      simp at hx
    | succ m ih =>
      intro s hlen hx
      cases s with
      | nil =>
        rw [replaceAll_nil] at hx
        simp at hx
      | cons c cs =>
        by_cases hm : pat ≠ [] ∧ startsWith pat (c :: cs) = true
        · rw [replaceAll_head_match rep hm.1 hm.2 (by simp)] at hx
          rcases List.mem_append.mp hx with hrep | hrec
          · exact Or.inr hrep
          · have hlen2 : ((c :: cs).drop pat.length).length ≤ m := by
              have hp : 0 < pat.length := List.length_pos.mpr hm.1
              simp only [List.length_drop]
              simp at hlen ⊢
              omega
            rcases ih _ hlen2 hrec with hs | hrep
            · exact Or.inl (List.mem_of_mem_drop hs)
            · exact Or.inr hrep
        · rw [replaceAll_head_miss rep hm] at hx
          rcases List.mem_cons.mp hx with rfl | hrec
          · exact Or.inl (by simp)
          · rcases ih cs (by simpa using hlen) hrec with hs | hrep
            · exact Or.inl (by simp [hs])
            · exact Or.inr hrep
  exact fun s => H s.length s le_rfl

/-- Modelled from the spec (section 4.2): the placeholder text
`\x7b\x7b<key><suffix>\x7d\x7d` produced by the templatizer for a key
and a structured suffix. -/
def placeholderOf (key suffix : Str) : Str :=
  "\x7b\x7b".data ++ key ++ suffix ++ "\x7d\x7d".data

/-- Modelled from the spec: solution-common's templatizeTerm (called in
src/packages/group/src/group.ts lines 40-44 but itself not in the
snapshot): every occurrence of `term` in `context` becomes the
placeholder `\x7b\x7bterm<suffix>\x7d\x7d`. -/
def templatizeTerm (context term suffix : Str) : Str :=
  replaceAll term (placeholderOf term suffix) context

/-- Modelled from the spec: solution-common's replaceInTemplate (called
in group.ts lines 107-110 but itself not in the snapshot): textual,
total substitution, over the serialized payload, of every placeholder
whose dictionary path is known, by the dictionary value of that path. -/
def replaceInTemplate (payload : Str) (dict : List (Str × Str)) : Str :=
  dict.foldl (fun p kv => replaceAll (placeholderOf kv.1 []) kv.2 p) payload

theorem placeholderOf_cons (key suffix : Str) :
    placeholderOf key suffix =
      '{' :: '{' :: (key ++ suffix ++ "\x7d\x7d".data) := rfl

theorem placeholderOf_ne_nil (key suffix : Str) :
    placeholderOf key suffix ≠ [] := by
  rw [placeholderOf_cons]
  simp

theorem replaceAll_roundTrip (I I2 suffix : Str) (hI : I ≠ []) :
    ∀ context : Str, (∀ c ∈ context, c ≠ '{') →
      replaceAll (placeholderOf I suffix) I2
          (replaceAll I (placeholderOf I suffix) context) =
        replaceAll I I2 context := by
  have H : ∀ n, ∀ context : Str, context.length ≤ n →
      (∀ c ∈ context, c ≠ '{') →
      replaceAll (placeholderOf I suffix) I2
          (replaceAll I (placeholderOf I suffix) context) =
        replaceAll I I2 context := by
    intro n
    induction n with
    | zero =>
      intro context hlen _
      have hs : context = [] := List.length_eq_zero.mp (Nat.le_zero.mp hlen)
      subst hs
      rw [replaceAll_nil, replaceAll_nil, replaceAll_nil]
    | succ m ih =>
      intro context hlen hctx
      cases context with
      | nil => rw [replaceAll_nil, replaceAll_nil, replaceAll_nil]
      | cons c cs =>
        by_cases hm : startsWith I (c :: cs) = true
        · obtain ⟨t, ht⟩ := (startsWith_iff I (c :: cs)).mp hm
          have hdrop : (c :: cs).drop I.length = t := by
            rw [ht, List.drop_left]
          rw [replaceAll_head_match (placeholderOf I suffix) hI hm (by simp)]
          rw [replaceAll_head_match I2 hI hm (by simp)]
          rw [replaceAll_append_pat _ _ _ (placeholderOf_ne_nil I suffix)]
          rw [hdrop]
          congr 1
          have hlent : t.length ≤ m := by
            have h1 : cs.length + 1 = I.length + t.length := by
              have := congrArg List.length ht
              simpa using this
            have h2 : 0 < I.length := List.length_pos.mpr hI
            have h3 : cs.length + 1 ≤ m + 1 := by simpa using hlen
            omega
          apply ih t hlent
          intro x hx
          apply hctx
          rw [ht]
          exact List.mem_append.mpr (Or.inr hx)
        · have hc : c ≠ '{' := hctx c (by simp)
          rw [replaceAll_head_miss (placeholderOf I suffix)
            (fun hand => hm hand.2)]
          rw [replaceAll_head_miss I2 (fun hand => hm hand.2)]
          have hmiss2 : ¬ (placeholderOf I suffix ≠ [] ∧
              startsWith (placeholderOf I suffix)
                (c :: replaceAll I (placeholderOf I suffix) cs) = true) := by
            rintro ⟨_, hsw⟩
            rw [placeholderOf_cons, startsWith, Bool.and_eq_true] at hsw
            have hcc : '{' = c := by simpa using hsw.1
            exact hc hcc.symm
          rw [replaceAll_head_miss I2 hmiss2]
          congr 1
          exact ih cs (by simpa using hlen)
            (fun x hx => hctx x (by simp [hx]))
  exact fun context => H context.length context le_rfl

theorem occursIn_brace {pat s : Str} (hocc : OccursIn pat s)
    (hb : '{' ∈ pat) : '{' ∈ s := by
  obtain ⟨a, b, rfl⟩ := hocc
  simp [hb]

/-- C4 -/
theorem templatize_round_trip (context I I2 : Str)
    (hI : I ≠ []) (hctx : ∀ c ∈ context, c ≠ '{')
    (hI2 : ∀ c ∈ I2, c ≠ '{') (hocc : OccursIn I context) :
    OccursIn I2
        (replaceInTemplate (templatizeTerm context I ".itemId".data)
          [(I ++ ".itemId".data, I2)]) ∧
      ¬ OccursIn ("\x7b\x7b".data ++ I)
        (replaceInTemplate (templatizeTerm context I ".itemId".data)
          [(I ++ ".itemId".data, I2)]) ∧
      replaceInTemplate (templatizeTerm context I ".itemId".data)
          [(I ++ ".itemId".data, I2)] =
        replaceAll I I2 context := by
  have hkey : placeholderOf (I ++ ".itemId".data) [] =
      placeholderOf I ".itemId".data := by
    rw [placeholderOf, placeholderOf]
    simp
  have hred : replaceInTemplate (templatizeTerm context I ".itemId".data)
      [(I ++ ".itemId".data, I2)] =
      replaceAll (placeholderOf I ".itemId".data) I2
        (replaceAll I (placeholderOf I ".itemId".data) context) := by
    rw [replaceInTemplate, templatizeTerm]
    simp [hkey]
  have hrt := replaceAll_roundTrip I I2 ".itemId".data hI context hctx
  rw [hred, hrt]
  refine ⟨?_, ?_, rfl⟩
  · exact occursIn_of_occursIn_replaceAll hI context hocc
  · intro hoc
    have hbrace : '{' ∈ replaceAll I I2 context :=
      occursIn_brace hoc (by simp)
    rcases mem_replaceAll context hbrace with hin | hin
    · exact hctx _ hin rfl
    · exact hI2 _ hin rfl

/-- Witness for C4 at context = id = "grp9", new value "ab12". -/
theorem templatize_round_trip_witness :
    ("grp9".data ≠ [] ∧ (∀ c ∈ "grp9".data, c ≠ '{') ∧
        (∀ c ∈ "ab12".data, c ≠ '{') ∧ OccursIn "grp9".data "grp9".data) ∧
      OccursIn "ab12".data
        (replaceInTemplate (templatizeTerm "grp9".data "grp9".data ".itemId".data)
          [("grp9".data ++ ".itemId".data, "ab12".data)]) ∧
      ¬ OccursIn ("\x7b\x7b".data ++ "grp9".data)
        (replaceInTemplate (templatizeTerm "grp9".data "grp9".data ".itemId".data)
          [("grp9".data ++ ".itemId".data, "ab12".data)]) ∧
      replaceInTemplate (templatizeTerm "grp9".data "grp9".data ".itemId".data)
          [("grp9".data ++ ".itemId".data, "ab12".data)] =
        replaceAll "grp9".data "ab12".data "grp9".data := by
  have h1 : "grp9".data ≠ [] := by decide
  have h2 : ∀ c ∈ "grp9".data, c ≠ '{' := by decide
  have h3 : ∀ c ∈ "ab12".data, c ≠ '{' := by decide
  have h4 : OccursIn "grp9".data "grp9".data := ⟨[], [], by simp⟩
  exact ⟨⟨h1, h2, h3, h4⟩,
    templatize_round_trip "grp9".data "grp9".data "ab12".data h1 h2 h3 h4⟩


/-! ## Deployment Replayer: group creation and the template dictionary

From src/packages/group/src/group.ts, createItemFromTemplate (lines
95-166): the claim-relevant observables are the createGroup call, the
dictionary write that follows a successful creation, the resource copy,
and the rejection paths.  The payload rewriting (replaceInTemplate,
unique title, access) is covered by the templatizer section and not
repeated; the JS dictionary is a shared object, so the embedding
returns the dictionary as left by the call even across a rejection.
The strictly sequential replay loop lives in the deployer package,
which is not in the snapshot; deploySequence is modelled from the spec
(section 4.4: one template at a time, abort the remaining sequence on
the first creation failure). -/

structure GroupCreateResult where
  success : Bool
  groupId : String
deriving DecidableEq, Repr

structure DeployCollab where
  createGroup : String → Except Unit GroupCreateResult
  copyFilesFromStorageItem : String → Except Unit Unit

abbrev TemplateDictionary := List (String × String)

def dictLookup (dict : TemplateDictionary) (k : String) : Option String :=
  match dict.find? (fun p => p.1 == k) with
  | some p => some p.2
  | none => none

def createItemFromTemplateG (c : DeployCollab) (t : ItemTemplate)
    (dict : TemplateDictionary) :
    Except Unit String × TemplateDictionary :=
  match c.createGroup t.itemId with
  | Except.error _ => (Except.error (), dict)
  | Except.ok r =>
    if r.success then
      let dict2 := dict ++ [(t.itemId, r.groupId)]
      match c.copyFilesFromStorageItem t.itemId with
      | Except.error _ => (Except.error (), dict2)
      | Except.ok _ => (Except.ok r.groupId, dict2)
    else (Except.error (), dict)

def deploySequence (c : DeployCollab) :
    List ItemTemplate → TemplateDictionary →
      Except Unit Unit × TemplateDictionary
  | [], dict => (Except.ok (), dict)
  | t :: ts, dict =>
    match createItemFromTemplateG c t dict with
    | (Except.error e, dict2) => (Except.error e, dict2)
    | (Except.ok _, dict2) => deploySequence c ts dict2

theorem dictLookup_append_single (dict : TemplateDictionary)
    (k id v : String) :
    dictLookup (dict ++ [(id, v)]) k =
      if dictLookup dict k = none then
        (if id = k then some v else none)
      else dictLookup dict k := by
  rw [dictLookup, List.find?_append]
  rcases hfind : dict.find? (fun p => p.1 == k) with _ | p
  · simp [dictLookup, hfind]
    by_cases h : id = k <;> simp [List.find?, h]
  · simp [dictLookup, hfind]

theorem createFail_no_write (c : DeployCollab) (t : ItemTemplate)
    (dict : TemplateDictionary)
    (h : c.createGroup t.itemId = Except.error () ∨
      ∃ r, c.createGroup t.itemId = Except.ok r ∧ r.success = false) :
    createItemFromTemplateG c t dict = (Except.error (), dict) := by
  rcases h with herr | ⟨r, hok, hfail⟩
  · rw [createItemFromTemplateG, herr]
  · rw [createItemFromTemplateG, hok]
    simp [hfail]

/-- C5 -/
theorem deploy_dict_entry_only_after_success :
    (∀ (c : DeployCollab) (t : ItemTemplate) (dict : TemplateDictionary),
      (c.createGroup t.itemId = Except.error () ∨
        ∃ r, c.createGroup t.itemId = Except.ok r ∧ r.success = false) →
      createItemFromTemplateG c t dict = (Except.error (), dict)) ∧
    (∀ (c : DeployCollab) (t : ItemTemplate) (dict : TemplateDictionary)
        (k v : String),
      dictLookup dict k = none →
      dictLookup (createItemFromTemplateG c t dict).2 k = some v →
      k = t.itemId ∧ ∃ r, c.createGroup t.itemId = Except.ok r ∧
        r.success = true ∧ v = r.groupId) ∧
    (∀ (c : DeployCollab) (X Y Z : ItemTemplate) (rX : GroupCreateResult),
      c.createGroup X.itemId = Except.ok rX → rX.success = true →
      c.copyFilesFromStorageItem X.itemId = Except.ok () →
      (c.createGroup Y.itemId = Except.error () ∨
        ∃ r, c.createGroup Y.itemId = Except.ok r ∧ r.success = false) →
      Y.itemId ≠ X.itemId → Z.itemId ≠ X.itemId →
      (deploySequence c [X, Y, Z] []).1 = Except.error () ∧
        dictLookup (deploySequence c [X, Y, Z] []).2 X.itemId =
          some rX.groupId ∧
        dictLookup (deploySequence c [X, Y, Z] []).2 Y.itemId = none ∧
        dictLookup (deploySequence c [X, Y, Z] []).2 Z.itemId = none) := by
  refine ⟨createFail_no_write, ?_, ?_⟩
  · intro c t dict k v hnone hsome
    rw [createItemFromTemplateG] at hsome
    rcases hg : c.createGroup t.itemId with _ | r
    · rw [hg] at hsome
      simp at hsome
      rw [hnone] at hsome
      cases hsome
    · rw [hg] at hsome
      by_cases hs : r.success = true
      · simp only [hs, if_true] at hsome
        rcases hcp : c.copyFilesFromStorageItem t.itemId with _ | _ <;>
          rw [hcp] at hsome <;>
          · simp at hsome
            rw [dictLookup_append_single, hnone] at hsome
            simp at hsome
            exact ⟨hsome.1.symm, r, rfl, hs, hsome.2.symm⟩
      · simp only [hs] at hsome
        simp at hsome
        rw [hnone] at hsome
        cases hsome
  · intro c X Y Z rX hgX hsX hcX hY hYX hZX
    have hXstep : createItemFromTemplateG c X [] =
        (Except.ok rX.groupId, [(X.itemId, rX.groupId)]) := by
      rw [createItemFromTemplateG, hgX]
      simp [hsX, hcX]
    have hYstep : createItemFromTemplateG c Y [(X.itemId, rX.groupId)] =
        (Except.error (), [(X.itemId, rX.groupId)]) :=
      createFail_no_write c Y _ hY
    have hseq : deploySequence c [X, Y, Z] [] =
        (Except.error (), [(X.itemId, rX.groupId)]) := by
      simp only [deploySequence, hXstep, hYstep]
    rw [hseq]
    refine ⟨rfl, ?_, ?_, ?_⟩
    · simp [dictLookup, List.find?]
    · have hb : (X.itemId == Y.itemId) = false :=
        beq_eq_false_iff_ne.mpr (Ne.symm hYX)
      simp [dictLookup, List.find?, hb]
    · have hb : (X.itemId == Z.itemId) = false :=
        beq_eq_false_iff_ne.mpr (Ne.symm hZX)
      simp [dictLookup, List.find?, hb]

def c5collab : DeployCollab where
  createGroup := fun id =>
    if id = "x" then Except.ok ⟨true, "newx"⟩ else Except.error ()
  copyFilesFromStorageItem := fun _ => Except.ok ()

def tX : ItemTemplate := ⟨"x", "Group", []⟩

def tY : ItemTemplate := ⟨"y", "Group", []⟩

def tZ : ItemTemplate := ⟨"z", "Group", []⟩

/-- Witness for C5: deploying order [X, Y, Z] where creating Y rejects
leaves an entry for X only. -/
theorem deploy_dict_witness_c5 :
    (c5collab.createGroup tX.itemId =
        Except.ok (GroupCreateResult.mk true "newx") ∧
      c5collab.createGroup tY.itemId = Except.error () ∧
      tY.itemId ≠ tX.itemId ∧ tZ.itemId ≠ tX.itemId) ∧
      ((deploySequence c5collab [tX, tY, tZ] []).1 = Except.error () ∧
        dictLookup (deploySequence c5collab [tX, tY, tZ] []).2 tX.itemId =
          some "newx" ∧
        dictLookup (deploySequence c5collab [tX, tY, tZ] []).2 tY.itemId =
          none ∧
        dictLookup (deploySequence c5collab [tX, tY, tZ] []).2 tZ.itemId =
          none) := by
  have h1 : c5collab.createGroup tX.itemId =
      Except.ok (GroupCreateResult.mk true "newx") := by rfl
  have h2 : c5collab.createGroup tY.itemId = Except.error () := by rfl
  have h3 : tY.itemId ≠ tX.itemId := by decide
  have h4 : tZ.itemId ≠ tX.itemId := by decide
  have h := deploy_dict_entry_only_after_success.2.2 c5collab tX tY tZ
    (GroupCreateResult.mk true "newx") h1 rfl (by rfl) (Or.inl h2) h3 h4
  exact ⟨⟨h1, h2, h3, h4⟩, h⟩


/-! ## Dependency Resolver: the recursive createItemTemplate

From src/packages/creator/src/createItemTemplate.ts lines 33-182 (the
type-to-module dispatch table) and lines 196-385 (the recursive
resolver).  External REST calls are an oracle (`Collaborator`), console
warnings and the thumbnail upload are recorded as events, and fuel
bounds the recursion depth (the JS recursion is bounded by the finite
item graph).  The JS Promise.all over the dependency resolutions is
embedded sequentially in list order: outcomes are fixed by the oracle,
and Promise.all settles successfully iff every child resolution does,
which the sequential fold preserves.  The extent templatization
(lines 229-232) touches no claim and is omitted. -/

inductive ModuleRef where
  | simpleTypes
  | featureLayer
deriving DecidableEq, Repr

def moduleMap : List (String × Option ModuleRef) := [
  ("360 vr experience", none),
  ("3d web scene", none),
  ("appbuilder extension", none),
  ("application configuration", none),
  ("application", none),
  ("arcgis pro add in", none),
  ("arcgis pro configuration", none),
  ("arcpad package", none),
  ("basemap package", none),
  ("big data analytic", none),
  ("cad drawing", none),
  ("cityengine web scene", none),
  ("code attachment", none),
  ("code sample", none),
  ("color set", none),
  ("compact tile package", none),
  ("csv collection", none),
  ("csv", none),
  ("dashboard", some ModuleRef.simpleTypes),
  ("data store", none),
  ("deep learning package", none),
  ("default", none),
  ("desktop add in", none),
  ("desktop application template", none),
  ("desktop application", none),
  ("desktop style", none),
  ("document link", none),
  ("elevation layer", none),
  ("excalibur imagery project", none),
  ("explorer add in", none),
  ("explorer layer", none),
  ("explorer map", none),
  ("feature collection template", none),
  ("feature collection", none),
  ("feature service", some ModuleRef.featureLayer),
  ("feed", none),
  ("file geodatabase", none),
  ("form", some ModuleRef.simpleTypes),
  ("geocoding service", none),
  ("geodata service", none),
  ("geojson", none),
  ("geometry service", none),
  ("geopackage", none),
  ("geoprocessing package", none),
  ("geoprocessing sample", none),
  ("geoprocessing service", none),
  ("globe document", none),
  ("globe service", none),
  ("group", some ModuleRef.simpleTypes),
  ("hub initiative", none),
  ("hub page", none),
  ("hub site application", none),
  ("image collection", none),
  ("image service", none),
  ("image", none),
  ("insights model", none),
  ("insights page", none),
  ("insights theme", none),
  ("insights workbook", none),
  ("iwork keynote", none),
  ("iwork numbers", none),
  ("iwork pages", none),
  ("kml collection", none),
  ("kml", none),
  ("layer package", none),
  ("layer template", none),
  ("layer", none),
  ("layout", none),
  ("locator package", none),
  ("map document", none),
  ("map image layer", none),
  ("map package", none),
  ("map service", none),
  ("map template", none),
  ("markup", none),
  ("microsoft excel", none),
  ("microsoft powerpoint", none),
  ("microsoft word", none),
  ("mission", none),
  ("mobile application", none),
  ("mobile basemap package", none),
  ("mobile map package", none),
  ("mobile scene package", none),
  ("native application installer", none),
  ("native application template", none),
  ("native application", none),
  ("netcdf", none),
  ("network analysis service", none),
  ("notebook", none),
  ("operation view", none),
  ("operations dashboard add in", none),
  ("operations dashboard extension", none),
  ("ortho mapping project", none),
  ("pdf", none),
  ("pro layer package", none),
  ("pro layer", none),
  ("pro map package", none),
  ("pro map", none),
  ("pro report", none),
  ("project package", none),
  ("project template", none),
  ("published map", none),
  ("quickcapture project", none),
  ("raster function template", none),
  ("real time analytic", none),
  ("relational database connection", none),
  ("report template", none),
  ("route layer", none),
  ("rule package", none),
  ("scene document", none),
  ("scene layer package", none),
  ("scene service", none),
  ("shapefile", none),
  ("site application", none),
  ("site initiative", none),
  ("site page", none),
  ("solution", none),
  ("statistical data collection", none),
  ("storymap", none),
  ("stream service", none),
  ("style", none),
  ("survey123 add in", none),
  ("symbol set", none),
  ("table", none),
  ("task file", none),
  ("tile package", none),
  ("tool", none),
  ("toolbox package", none),
  ("urban model", none),
  ("vector tile package", none),
  ("vector tile service", none),
  ("viewer configuration", none),
  ("visio document", none),
  ("web experience template", none),
  ("web experience", none),
  ("web map", some ModuleRef.simpleTypes),
  ("web mapping application", some ModuleRef.simpleTypes),
  ("web scene", none),
  ("wfs", none),
  ("window mobile package", none),
  ("windows mobile package", none),
  ("windows viewer add in", none),
  ("windows viewer configuration", none),
  ("wms", none),
  ("wmts", none),
  ("workflow manager package", none),
  ("workflow manager service", none),
  ("workforce project", none)]

/-- JS String.prototype.toLowerCase over the ASCII type names
(String.toLower is used in the source; character-wise lowering is the
same function on this alphabet). -/
def jsToLowerCase (s : String) : String := String.mk (s.data.map Char.toLower)

def moduleFor (ty : String) : Option ModuleRef :=
  match moduleMap.find? (fun p => p.1 == ty) with
  | some p => p.2
  | none => none

structure ItemInfo where
  id : String
  type : String
  tags : List String
deriving DecidableEq, Repr

inductive ResolveEvent where
  | warnedUnimplemented (ty id : String)
  | thumbnailAdded (solutionItemId : String)
deriving DecidableEq, Repr

structure Collaborator where
  getItem : String → Except Unit ItemInfo
  getGroup : String → Except Unit ItemInfo
  getBlob : String → Except Unit Unit
  addThumbnailFromBlob : String → Except Unit Unit
  convertItemToTemplate : String → Except Unit ItemTemplate
  convertGroupToTemplate : String → Except Unit ItemTemplate

structure ResolveState where
  store : List ItemTemplate
  events : List ResolveEvent
deriving DecidableEq, Repr

mutual

def createItemTemplateF (c : Collaborator) (solutionItemId : String) :
    Nat → String → ResolveState → Except Unit ResolveState
  | 0, _, _ => Except.error ()
  | fuel + 1, itemId, st =>
    if (findTemplateInList st.store itemId).isSome then Except.ok st
    else
      let st1 : ResolveState :=
        { st with store := st.store ++ [createPlaceholderTemplate itemId] }
      match c.getItem itemId with
      | Except.ok itemInfo =>
        if itemInfo.tags.contains "deploy.thumbnail" then
          match c.getBlob itemId with
          | Except.error _ => Except.ok st1
          | Except.ok _ =>
            let st2 : ResolveState :=
              { st1 with events :=
                  st1.events ++ [ResolveEvent.thumbnailAdded solutionItemId] }
            match c.addThumbnailFromBlob solutionItemId with
            | Except.ok _ => Except.ok st2
            | Except.error _ => Except.ok st2
        else
          match moduleFor (jsToLowerCase itemInfo.type) with
          | none =>
            Except.ok { st1 with events := st1.events ++
                [ResolveEvent.warnedUnimplemented itemInfo.type itemId] }
          | some _ =>
            match c.convertItemToTemplate itemId with
            | Except.error _ => Except.error ()
            | Except.ok itemTemplate =>
              let st2 : ResolveState :=
                { st1 with store :=
                    replaceTemplate st1.store itemTemplate.itemId itemTemplate }
              resolveDependenciesF c solutionItemId fuel
                itemTemplate.dependencies st2
      | Except.error _ =>
        match c.getGroup itemId with
        | Except.error _ => Except.error ()
        | Except.ok _ =>
          match c.convertGroupToTemplate itemId with
          | Except.error _ => Except.error ()
          | Except.ok itemTemplate =>
            let st2 : ResolveState :=
              { st1 with store :=
                  replaceTemplate st1.store itemTemplate.itemId itemTemplate }
            resolveDependenciesF c solutionItemId fuel
              itemTemplate.dependencies st2
termination_by fuel _ _ => (fuel, 0)

def resolveDependenciesF (c : Collaborator) (solutionItemId : String) :
    Nat → List String → ResolveState → Except Unit ResolveState
  | _, [], st => Except.ok st
  | fuel, d :: ds, st =>
    if (findTemplateInList st.store d).isSome then
      resolveDependenciesF c solutionItemId fuel ds st
    else
      match createItemTemplateF c solutionItemId fuel d st with
      | Except.error e => Except.error e
      | Except.ok st2 => resolveDependenciesF c solutionItemId fuel ds st2
termination_by fuel ds _ => (fuel, ds.length + 1)

end

theorem resolver_unsupported (c : Collaborator) (sol : String) (fuel : Nat)
    (id : String) (st : ResolveState) (info : ItemInfo)
    (h1 : (findTemplateInList st.store id).isSome = false)
    (h2 : c.getItem id = Except.ok info)
    (h3 : info.tags.contains "deploy.thumbnail" = false)
    (h4 : moduleFor (jsToLowerCase info.type) = none) :
    createItemTemplateF c sol (fuel + 1) id st =
      Except.ok
        { store := st.store ++ [createPlaceholderTemplate id],
          events := st.events ++
            [ResolveEvent.warnedUnimplemented info.type id] } := by
  rw [createItemTemplateF]
  rw [h1]
  simp only [Bool.false_eq_true, if_false, h2, h3, h4]

theorem resolveDependenciesF_append (c : Collaborator) (sol : String)
    (fuel : Nat) (l1 l2 : List String) (st : ResolveState) :
    resolveDependenciesF c sol fuel (l1 ++ l2) st =
      match resolveDependenciesF c sol fuel l1 st with
      | Except.error e => Except.error e
      | Except.ok st2 => resolveDependenciesF c sol fuel l2 st2 := by
  induction l1 generalizing st with
  | nil => simp [resolveDependenciesF]
  | cons d ds ih =>
    rw [List.cons_append]
    simp only [resolveDependenciesF]
    by_cases h : (findTemplateInList st.store d).isSome
    · simp only [h, if_true]
      exact ih st
    · simp only [h, Bool.false_eq_true, if_false]
      rcases createItemTemplateF c sol fuel d st with _ | st2
      · rfl
      · exact ih st2

theorem resolver_root_failure (c : Collaborator) (sol : String) (fuel : Nat)
    (id : String) (st : ResolveState)
    (h1 : (findTemplateInList st.store id).isSome = false)
    (h2 : c.getItem id = Except.error ())
    (h3 : c.getGroup id = Except.error ()) :
    createItemTemplateF c sol (fuel + 1) id st = Except.error () := by
  rw [createItemTemplateF]
  rw [h1]
  simp only [Bool.false_eq_true, if_false, h2, h3]

theorem resolver_convert_failure (c : Collaborator) (sol : String)
    (fuel : Nat) (id : String) (st : ResolveState) (info : ItemInfo)
    (m : ModuleRef)
    (h1 : (findTemplateInList st.store id).isSome = false)
    (h2 : c.getItem id = Except.ok info)
    (h3 : info.tags.contains "deploy.thumbnail" = false)
    (h4 : moduleFor (jsToLowerCase info.type) = some m)
    (h5 : c.convertItemToTemplate id = Except.error ()) :
    createItemTemplateF c sol (fuel + 1) id st = Except.error () := by
  rw [createItemTemplateF]
  rw [h1]
  simp only [Bool.false_eq_true, if_false, h2, h3, h4, h5]

theorem resolver_converted_eq_deps (c : Collaborator) (sol : String)
    (fuel : Nat) (id : String) (st : ResolveState) (info : ItemInfo)
    (m : ModuleRef) (tmpl : ItemTemplate)
    (h1 : (findTemplateInList st.store id).isSome = false)
    (h2 : c.getItem id = Except.ok info)
    (h3 : info.tags.contains "deploy.thumbnail" = false)
    (h4 : moduleFor (jsToLowerCase info.type) = some m)
    (h5 : c.convertItemToTemplate id = Except.ok tmpl) :
    createItemTemplateF c sol (fuel + 1) id st =
      resolveDependenciesF c sol fuel tmpl.dependencies
        { st with
            store := replaceTemplate
              (st.store ++ [createPlaceholderTemplate id]) tmpl.itemId tmpl }
      := by
  rw [createItemTemplateF]
  rw [h1]
  simp only [Bool.false_eq_true, if_false, h2, h3, h4, h5]

/-- C6 -/
theorem resolver_failure_propagation :
    (∀ (c : Collaborator) (sol : String) (fuel : Nat) (id : String)
        (st : ResolveState),
      (findTemplateInList st.store id).isSome = false →
      c.getItem id = Except.error () → c.getGroup id = Except.error () →
      createItemTemplateF c sol (fuel + 1) id st = Except.error ()) ∧
    (∀ (c : Collaborator) (sol : String) (fuel : Nat) (id : String)
        (st : ResolveState) (info : ItemInfo) (m : ModuleRef),
      (findTemplateInList st.store id).isSome = false →
      c.getItem id = Except.ok info →
      info.tags.contains "deploy.thumbnail" = false →
      moduleFor (jsToLowerCase info.type) = some m →
      c.convertItemToTemplate id = Except.error () →
      createItemTemplateF c sol (fuel + 1) id st = Except.error ()) ∧
    (∀ (c : Collaborator) (sol : String) (fuel : Nat) (id : String)
        (st : ResolveState) (info : ItemInfo) (m : ModuleRef)
        (tmpl : ItemTemplate),
      (findTemplateInList st.store id).isSome = false →
      c.getItem id = Except.ok info →
      info.tags.contains "deploy.thumbnail" = false →
      moduleFor (jsToLowerCase info.type) = some m →
      c.convertItemToTemplate id = Except.ok tmpl →
      createItemTemplateF c sol (fuel + 1) id st =
        resolveDependenciesF c sol fuel tmpl.dependencies
          { st with
              store := replaceTemplate
                (st.store ++ [createPlaceholderTemplate id]) tmpl.itemId
                tmpl }) ∧
    (∀ (c : Collaborator) (sol : String) (fuel : Nat) (ds1 : List String)
        (d : String) (ds2 : List String) (st st2 : ResolveState),
      resolveDependenciesF c sol fuel ds1 st = Except.ok st2 →
      (findTemplateInList st2.store d).isSome = false →
      createItemTemplateF c sol fuel d st2 = Except.error () →
      resolveDependenciesF c sol fuel (ds1 ++ d :: ds2) st =
        Except.error ()) := by
  refine ⟨resolver_root_failure, ?_, ?_, ?_⟩
  · intro c sol fuel id st info m h1 h2 h3 h4 h5
    exact resolver_convert_failure c sol fuel id st info m h1 h2 h3 h4 h5
  · intro c sol fuel id st info m tmpl h1 h2 h3 h4 h5
    exact resolver_converted_eq_deps c sol fuel id st info m tmpl h1 h2 h3 h4 h5
  · intro c sol fuel ds1 d ds2 st st2 hok hnf herr
    rw [resolveDependenciesF_append, hok]
    simp only [resolveDependenciesF]
    rw [hnf]
    simp only [Bool.false_eq_true, if_false, herr]

/-- C8 -/
theorem resolver_thumbnail_item (c : Collaborator) (sol : String)
    (fuel : Nat) (id : String) (st : ResolveState) (info : ItemInfo)
    (h1 : (findTemplateInList st.store id).isSome = false)
    (h2 : c.getItem id = Except.ok info)
    (h3 : info.tags.contains "deploy.thumbnail" = true) :
    ∃ st2, createItemTemplateF c sol (fuel + 1) id st = Except.ok st2 ∧
      st2.store = st.store ++ [createPlaceholderTemplate id] ∧
      (c.getBlob id = Except.error () → st2.events = st.events) ∧
      (c.getBlob id = Except.ok () →
        st2.events = st.events ++ [ResolveEvent.thumbnailAdded sol]) := by
  rw [createItemTemplateF]
  rw [h1]
  simp only [Bool.false_eq_true, if_false, h2, h3, if_true]
  rcases hb : c.getBlob id with e | u
  · cases e
    refine ⟨_, rfl, rfl, fun _ => rfl, fun hc => ?_⟩
    simp at hc
  · cases u
    rcases hth : c.addThumbnailFromBlob sol with e2 | u2
    · cases e2
      refine ⟨_, rfl, rfl, fun hc => ?_, fun _ => rfl⟩
      simp at hc
    · cases u2
      refine ⟨_, rfl, rfl, fun hc => ?_, fun _ => rfl⟩
      simp at hc

def c6collab : Collaborator where
  getItem := fun id =>
    if id = "bad" then Except.error ()
    else Except.ok (ItemInfo.mk id "Dashboard" [])
  getGroup := fun _ => Except.error ()
  getBlob := fun _ => Except.ok ()
  addThumbnailFromBlob := fun _ => Except.ok ()
  convertItemToTemplate := fun id =>
    if id = "cv" then Except.error ()
    else Except.ok (ItemTemplate.mk id "Dashboard" ["bad"])
  convertGroupToTemplate := fun _ => Except.error ()

def emptySt : ResolveState := ResolveState.mk [] []

/-- Witness for C6: a fetch failure at the root, a conversion failure
at the root, and a failing dependency all reject the resolution. -/
theorem resolver_failure_witness_c6 :
    createItemTemplateF c6collab "sol" 1 "bad" emptySt = Except.error () ∧
      createItemTemplateF c6collab "sol" 1 "cv" emptySt = Except.error () ∧
      createItemTemplateF c6collab "sol" 2 "ok1" emptySt =
        Except.error () := by
  have h1 := resolver_failure_propagation.1 c6collab "sol" 0 "bad" emptySt
    rfl rfl rfl
  have h2 := resolver_failure_propagation.2.1 c6collab "sol" 0 "cv" emptySt
    (ItemInfo.mk "cv" "Dashboard" []) ModuleRef.simpleTypes
    rfl rfl rfl (by decide) rfl
  have h3 := resolver_failure_propagation.2.2.1 c6collab "sol" 1 "ok1"
    emptySt (ItemInfo.mk "ok1" "Dashboard" []) ModuleRef.simpleTypes
    (ItemTemplate.mk "ok1" "Dashboard" ["bad"]) rfl rfl rfl (by decide) rfl
  have hst2 : replaceTemplate
      (emptySt.store ++ [createPlaceholderTemplate "ok1"]) "ok1"
      (ItemTemplate.mk "ok1" "Dashboard" ["bad"]) =
      [ItemTemplate.mk "ok1" "Dashboard" ["bad"]] := by rfl
  have hbadfail : createItemTemplateF c6collab "sol" 1 "bad"
      (ResolveState.mk [ItemTemplate.mk "ok1" "Dashboard" ["bad"]] []) =
      Except.error () :=
    resolver_failure_propagation.1 c6collab "sol" 0 "bad" _ rfl rfl rfl
  have h4 := resolver_failure_propagation.2.2.2 c6collab "sol" 1 []
    "bad" [] (ResolveState.mk [ItemTemplate.mk "ok1" "Dashboard" ["bad"]] [])
    (ResolveState.mk [ItemTemplate.mk "ok1" "Dashboard" ["bad"]] [])
    (by simp [resolveDependenciesF]) rfl hbadfail
  refine ⟨h1, h2, ?_⟩
  rw [h3]
  simpa using h4

def c7collab : Collaborator where
  getItem := fun id => Except.ok (ItemInfo.mk id "CSV" [])
  getGroup := fun _ => Except.error ()
  getBlob := fun _ => Except.ok ()
  addThumbnailFromBlob := fun _ => Except.ok ()
  convertItemToTemplate := fun _ => Except.error ()
  convertGroupToTemplate := fun _ => Except.error ()

/-- Witness for C7: an item of type "CSV" (mapped to null) resolves
successfully, leaves only the placeholder, and logs a warning. -/
theorem resolver_unsupported_witness_c7 :
    ((findTemplateInList emptySt.store "u1").isSome = false ∧
        c7collab.getItem "u1" = Except.ok (ItemInfo.mk "u1" "CSV" []) ∧
        moduleFor (jsToLowerCase "CSV") = none) ∧
      createItemTemplateF c7collab "sol" 1 "u1" emptySt =
        Except.ok
          { store := emptySt.store ++ [createPlaceholderTemplate "u1"],
            events := emptySt.events ++
              [ResolveEvent.warnedUnimplemented "CSV" "u1"] } := by
  refine ⟨⟨rfl, rfl, by decide⟩, ?_⟩
  exact resolver_unsupported c7collab "sol" 0 "u1" emptySt
    (ItemInfo.mk "u1" "CSV" []) rfl rfl rfl (by decide)

def c8collab : Collaborator where
  getItem := fun id =>
    Except.ok (ItemInfo.mk id "Image" ["a", "deploy.thumbnail"])
  getGroup := fun _ => Except.error ()
  getBlob := fun _ => Except.ok ()
  addThumbnailFromBlob := fun _ => Except.error ()
  convertItemToTemplate := fun _ => Except.error ()
  convertGroupToTemplate := fun _ => Except.error ()

/-- Witness for C8: an item tagged deploy.thumbnail is consumed into the
solution thumbnail (even though the upload rejects), resolves
successfully, and leaves only its placeholder in the store. -/
theorem resolver_thumbnail_witness_c8 :
    ((ItemInfo.mk "t1" "Image" ["a", "deploy.thumbnail"]).tags.contains
        "deploy.thumbnail" = true) ∧
      ∃ st2, createItemTemplateF c8collab "solA" 1 "t1" emptySt =
          Except.ok st2 ∧
        st2.store = emptySt.store ++ [createPlaceholderTemplate "t1"] ∧
        (c8collab.getBlob "t1" = Except.error () →
          st2.events = emptySt.events) ∧
        (c8collab.getBlob "t1" = Except.ok () →
          st2.events = emptySt.events ++
            [ResolveEvent.thumbnailAdded "solA"]) := by
  refine ⟨by rfl, ?_⟩
  exact resolver_thumbnail_item c8collab "solA" 0 "t1" emptySt
    (ItemInfo.mk "t1" "Image" ["a", "deploy.thumbnail"]) rfl rfl (by rfl)


/-! ## Resource copy helper: copyFilesToStorageItem

From src/packages/common/src/resourceHelpers.ts lines 351-383: every
per-file promise resolves (success gives "folder/filename", failure
gives ""), so the aggregate promise never rejects; the embedding is a
total function over an oracle of per-file outcomes.  Callers
(group.ts line 78, store-item-resources.ts line 90) filter out the
empty strings. -/

structure SourceFileCopyPath where
  url : String
  folder : String
  filename : String
deriving DecidableEq, Repr

def copyFilesToStorageItem
    (copyOutcome : SourceFileCopyPath → Except Unit Unit)
    (filePaths : List SourceFileCopyPath) : List String :=
  filePaths.map fun fp =>
    match copyOutcome fp with
    | Except.ok _ => fp.folder ++ "/" ++ fp.filename
    | Except.error _ => ""

theorem storedName_ne_empty (a b : String) : a ++ "/" ++ b ≠ "" := by
  intro h
  have := congrArg String.length h
  simp [String.length_append] at this
  exact absurd this.1.2 (by decide)

/-- C10 -/
theorem copyFiles_never_rejects
    (o : SourceFileCopyPath → Except Unit Unit)
    (filePaths : List SourceFileCopyPath) :
    (copyFilesToStorageItem o filePaths).length = filePaths.length ∧
    (∀ i, ∀ hi : i < filePaths.length,
      (copyFilesToStorageItem o filePaths)[i]? =
        some (match o filePaths[i] with
          | Except.ok _ => filePaths[i].folder ++ "/" ++ filePaths[i].filename
          | Except.error _ => "")) ∧
    (copyFilesToStorageItem o filePaths).filter (fun s => s ≠ "") =
      (filePaths.filter (fun fp => (o fp).toBool)).map
        (fun fp => fp.folder ++ "/" ++ fp.filename) := by
  refine ⟨by simp [copyFilesToStorageItem], ?_, ?_⟩
  · intro i hi
    rw [copyFilesToStorageItem]
    rw [List.getElem?_map]
    rw [List.getElem?_eq_getElem hi]
    rfl
  · induction filePaths with
    | nil => rfl
    | cons fp fps ih =>
      rw [copyFilesToStorageItem] at ih ⊢
      rw [List.map_cons, List.filter_cons, List.filter_cons]
      simp only [ne_eq, decide_not] at ih
      rcases ho : o fp with u | u
      · simp only [ho]
        have h1 : (decide ¬("" : String) ≠ "") = true := by decide
        simp only [ne_eq, decide_not]
        rw [if_neg (by simp), if_neg (by simp [Except.toBool])]
        exact ih
      · simp only [ho]
        have hne : fp.folder ++ "/" ++ fp.filename ≠ "" :=
          storedName_ne_empty fp.folder fp.filename
        simp only [ne_eq, decide_not]
        rw [if_pos (by simpa using hne), if_pos (by simp [Except.toBool])]
        rw [List.map_cons, ih]

def fpA : SourceFileCopyPath := ⟨"urlA", "f1", "thumb.png"⟩

def fpB : SourceFileCopyPath := ⟨"urlB", "f2", "meta.xml"⟩

def c10outcome : SourceFileCopyPath → Except Unit Unit :=
  fun fp => if fp.folder = "f2" then Except.error () else Except.ok ()

/-- Witness for C10: one successful and one failed copy yield
["f1/thumb.png", ""], and filtering the empty strings leaves exactly
the stored resource name. -/
theorem copyFiles_witness_c10 :
    (copyFilesToStorageItem c10outcome [fpA, fpB]).length = 2 ∧
      ((0 : Nat) < 2 ∧
        (copyFilesToStorageItem c10outcome [fpA, fpB])[0]? =
          some "f1/thumb.png") ∧
      (copyFilesToStorageItem c10outcome [fpA, fpB]).filter
          (fun s => s ≠ "") = ["f1/thumb.png"] := by
  have h := copyFiles_never_rejects c10outcome [fpA, fpB]
  refine ⟨h.1, ⟨by decide, ?_⟩, ?_⟩
  · have h2 := h.2.1 0 (by decide)
    rw [h2]
    decide
  · rw [h.2.2]
    decide


/-! ## Web-map layer lookup hash and datasource layer-id attachment

From src/packages/creator/src/createItemTemplate.ts:
_updateWebMapHashInfo (lines 505-536) and _addMapLayerIds (lines
546-575), together with the JS regular-expression replace of line 525
modelled character-exactly (leftmost-first alternative, first match
only, layer numbers 0-99).  The solution-common helper
cleanLayerBasedItemId is not in the snapshot and is modelled from the
spec.  The hash is an insertion-ordered association list, standing for
the JS object whose keys enumerate in insertion order. -/

/-- A web map operational layer or table record (the fields read by
_updateWebMapHashInfo; `itemId`/`url` are absent for some layer kinds,
and `id` is the in-map layer id). -/
structure MapLayer where
  itemId : Option Str
  url : Option Str
  id : Str
deriving DecidableEq, Repr

/-- The `\x7bid: layer.id, url: layer.url\x7d` record stored in the
lookup hash. -/
structure OpLayerInfo where
  id : Str
  url : Option Str
deriving DecidableEq, Repr

/-- JS truthiness of a possibly-absent string (undefined and "" are
falsy). -/
def jsTruthy (v : Option Str) : Bool :=
  match v with
  | some s => s ≠ []
  | none => false

/-- Length of a match, at the head of `s`, of the JS regular expression
([.]layer([0-9]|[1-9][0-9])[.]url)[\x7d]\x7b2\x7d of
createItemTemplate.ts line 525, with leftmost-alternative semantics:
one digit when ".url\x7d\x7d" follows it, else two digits with a
nonzero first. -/
def layerUrlMatchLen (s : Str) : Option Nat :=
  if startsWith ".layer".data s then
    match s.drop 6 with
    | d1 :: rest1 =>
      if d1.isDigit ∧ startsWith ".url\x7d\x7d".data rest1 then some 13
      else
        match rest1 with
        | d2 :: rest2 =>
          if ('1' ≤ d1 ∧ d1 ≤ '9') ∧ d2.isDigit ∧
              startsWith ".url\x7d\x7d".data rest2 then some 14
          else none
        | [] => none
    | [] => none
  else none

/-- JS String.replace with the non-global regex above: remove the first
match, scanning left to right. -/
def removeFirstLayerUrlMatch : Str → Str
  | [] => []
  | c :: rest =>
    match layerUrlMatchLen (c :: rest) with
    | some n => (c :: rest).drop n
    | none => c :: removeFirstLayerUrlMatch rest

/-- JS String.replace with a plain (nonempty) string pattern: replace
the first occurrence only. -/
def replaceFirst (pat rep : Str) : Str → Str
  | [] => []
  | c :: rest =>
    if pat ≠ [] ∧ startsWith pat (c :: rest) then
      rep ++ (c :: rest).drop pat.length
    else c :: replaceFirst pat rep rest

/-- Lines 523-525: url.replace("\x7b\x7b", "").replace(regex, ""). -/
def recoverItemIdFromUrl (url : Str) : Str :=
  removeFirstLayerUrlMatch (replaceFirst "\x7b\x7b".data [] url)

/-- Modelled from the spec: solution-common's cleanLayerBasedItemId is
not in the snapshot; per the spec's datasource tracing it reduces a
possibly templatized, possibly layer-based id to the base item id
(braces stripped, anything from the first dot on dropped; item ids
themselves are alphanumeric and pass through unchanged). -/
def cleanLayerBasedItemId (s : Str) : Str :=
  (s.filter (fun c => c ≠ '{' ∧ c ≠ '}')).takeWhile (fun c => c ≠ '.')

/-- Lines 516-533, one layer record: the hash entry contributed by a
single operational layer or table, when it carries an item reference. -/
def layerRecordOf (layer : MapLayer) : Option (Str × OpLayerInfo) :=
  let itemId : Option Str :=
    if jsTruthy layer.itemId then layer.itemId
    else
      match layer.url with
      | some u =>
        if containsSeg u "\x7b\x7b".data then some (recoverItemIdFromUrl u)
        else none
      | none => none
  match itemId with
  | some it =>
    if it ≠ [] then
      some (cleanLayerBasedItemId it, OpLayerInfo.mk layer.id layer.url)
    else none
  | none => none

/-- The forEach push of lines 516-533: append the layer's record, if
any, to the hash list. -/
def hashPushStep (acc : List (Str × OpLayerInfo)) (layer : MapLayer) :
    List (Str × OpLayerInfo) :=
  match layerRecordOf layer with
  | some r => acc ++ [r]
  | none => acc

/-- Lines 505-536: the layersAndTables lookup list of a web map's hash
entry (operationalLayers then tables, in order). -/
def updateWebMapHashInfo (layers tables : List MapLayer) :
    List (Str × OpLayerInfo) :=
  (layers ++ tables).foldl hashPushStep []

/-- The fields of a feature-service datasource info read by
_addMapLayerIds; `layerId` is always a number in the constructed infos,
so the isNaN guard of line 561 never fires. -/
structure DatasourceInfo where
  itemId : Str
  layerId : Nat
  url : Option Str
  ids : List Str
deriving DecidableEq, Repr

/-- An entry of the template-type lookup hash (type plus, for web maps,
the layer lookup list). -/
structure HashEntry where
  type : String
  layersAndTables : List (Str × OpLayerInfo)
deriving DecidableEq, Repr

def natToStr (n : Nat) : Str := (Nat.repr n).data

/-- Line 560-563: ds.url.replace(/[.]/, ".layer" + ds.layerId + "."). -/
def layerizedUrl (ds : DatasourceInfo) : Str :=
  match ds.url with
  | some u =>
    replaceFirst ['.'] ('.' :: "layer".data ++ natToStr ds.layerId ++ ['.']) u
  | none => []

/-- Line 560-563: the comparison url (empty when the datasource has no
url; the isNaN guard never fires since layerId is a number). -/
def attachUrl (ds : DatasourceInfo) : Str :=
  if ds.url.isSome then layerizedUrl ds else []

/-- Lines 558-570, one opLayer record: look the datasource's item id up
in the single-key record and push the in-map layer id when the urls
match and it is not already present. -/
def attachStep (ds : DatasourceInfo) (acc2 : List Str)
    (opLayer : Str × OpLayerInfo) : List Str :=
  let opLayerInfo : Option OpLayerInfo :=
    if opLayer.1 = ds.itemId then some opLayer.2 else none
  match opLayerInfo with
  | some oli =>
    if oli.url = some (attachUrl ds) ∧ ¬ acc2.contains oli.id then
      acc2 ++ [oli.id]
    else acc2
  | none => acc2

/-- The inner foreach of _addMapLayerIds over one web map's
layersAndTables list, threading the mutable ds.ids. -/
def attachFromLayerList (ds : DatasourceInfo)
    (lts : List (Str × OpLayerInfo)) (acc : List Str) : List Str :=
  lts.foldl (attachStep ds) acc

/-- Lines 546-575: attach the in-map layer ids recorded in the web-map
hash entries to the matching datasource infos. -/
def addMapLayerIds (dsInfos : List DatasourceInfo)
    (hash : List (Str × HashEntry)) : List DatasourceInfo :=
  let webMapIds :=
    (hash.filter (fun p => p.2.type == "Web Map")).map Prod.fst
  dsInfos.map (fun ds =>
    let ids2 := webMapIds.foldl
      (fun acc wm =>
        match hash.find? (fun p => p.1 == wm) with
        | some p => attachFromLayerList ds p.2.layersAndTables acc
        | none => acc) ds.ids
    { ds with ids := ids2 })

theorem foldl_hashPushStep_eq_filterMap (l : List MapLayer)
    (acc : List (Str × OpLayerInfo)) :
    l.foldl hashPushStep acc = acc ++ l.filterMap layerRecordOf := by
  induction l generalizing acc with
  | nil => simp
  | cons x xs ih =>
    rw [List.foldl_cons, List.filterMap_cons, hashPushStep]
    rcases hf : layerRecordOf x with _ | r
    · rw [ih]
    · rw [ih]
      simp

theorem layerUrlMatchLen_cons_ne {x : Char} (t : Str) (hx : x ≠ '.') :
    layerUrlMatchLen (x :: t) = none := by
  rw [layerUrlMatchLen]
  have : startsWith ".layer".data (x :: t) = false := by
    rw [show ".layer".data = '.' :: "layer".data from rfl, startsWith]
    simp [Ne.symm hx]
  rw [this]
  simp

theorem removeFirst_append_of_clean {a : Str} (s : Str)
    (ha : ∀ c ∈ a, c ≠ '.') :
    removeFirstLayerUrlMatch (a ++ s) = a ++ removeFirstLayerUrlMatch s := by
  induction a with
  | nil => simp
  | cons x xs ih =>
    have hnone := layerUrlMatchLen_cons_ne (xs ++ s) (ha x (by simp))
    have hih := ih (fun c hc => ha c (by simp [hc]))
    rw [List.cons_append, removeFirstLayerUrlMatch, hnone]
    simp [hih]

theorem replaceFirst_head_match {pat : Str} (rep : Str) {s : Str}
    (hp : pat ≠ []) (hs : startsWith pat s = true) (hne : s ≠ []) :
    replaceFirst pat rep s = rep ++ s.drop pat.length := by
  cases s with
  | nil => exact absurd rfl hne
  | cons c cs =>
    conv_lhs => unfold replaceFirst
    rw [if_pos ⟨hp, hs⟩]

theorem replaceFirst_dot_of_clean {a : Str} (rep b : Str)
    (ha : ∀ c ∈ a, c ≠ '.') :
    replaceFirst ['.'] rep (a ++ '.' :: b) = a ++ rep ++ b := by
  induction a with
  | nil =>
    rw [List.nil_append]
    rw [replaceFirst_head_match rep (by simp)
      (by rw [startsWith]; simp [startsWith]) (by simp)]
    simp
  | cons x xs ih =>
    rw [List.cons_append]
    conv_lhs => unfold replaceFirst
    have hsw : startsWith ['.'] (x :: (xs ++ '.' :: b)) = false := by
      rw [startsWith]
      simp [Ne.symm (ha x (by simp))]
    rw [if_neg (by simp [hsw])]
    rw [ih (fun c hc => ha c (by simp [hc]))]
    simp

/-- The decimal digit strings the line-525 regex can match: one digit,
or two digits with a nonzero first. -/
def WfLayerDigits (ds : Str) : Prop :=
  (∃ d, ds = [d] ∧ d.isDigit = true) ∨
    (∃ d1 d2, ds = [d1, d2] ∧ '1' ≤ d1 ∧ d1 ≤ '9' ∧ d2.isDigit = true)

theorem startsWith_self (p : Str) : startsWith p p = true :=
  (startsWith_iff p p).mpr ⟨[], by simp⟩

theorem layerUrlMatchLen_suffix {ds : Str} (hwf : WfLayerDigits ds) :
    layerUrlMatchLen (".layer".data ++ (ds ++ ".url\x7d\x7d".data)) =
      some (12 + ds.length) ∧
      (".layer".data ++ (ds ++ ".url\x7d\x7d".data)).length =
        12 + ds.length := by
  rcases hwf with ⟨d, rfl, hd⟩ | ⟨d1, d2, rfl, h1, h9, hd2⟩
  · constructor
    · rw [layerUrlMatchLen, startsWith_append_self, if_pos rfl]
      rw [show (6 : Nat) = (".layer".data).length from rfl, List.drop_left]
      simp only [List.singleton_append]
      rw [if_pos ⟨hd, startsWith_self _⟩]
      rfl
    · simp
  · constructor
    · rw [layerUrlMatchLen, startsWith_append_self, if_pos rfl]
      rw [show (6 : Nat) = (".layer".data).length from rfl, List.drop_left]
      simp only [List.cons_append, List.nil_append]
      have hne : startsWith ".url\x7d\x7d".data
          (d2 :: ".url\x7d\x7d".data) = false := by
        rw [show ".url\x7d\x7d".data = '.' :: "url\x7d\x7d".data from rfl,
          startsWith]
        have hd2ne : d2 ≠ '.' := by
          intro hcon
          rw [hcon] at hd2
          exact absurd hd2 (by decide)
        simp [Ne.symm hd2ne]
      rw [if_neg (by simp [hne])]
      rw [if_pos ⟨⟨h1, h9⟩, hd2, startsWith_self _⟩]
      rfl
    · simp

/-- The templatized layer url text `\x7b\x7bK.layer<ds>.url\x7d\x7d`. -/
def layerUrlOf (K ds : Str) : Str :=
  "\x7b\x7b".data ++ (K ++ (".layer".data ++ (ds ++ ".url\x7d\x7d".data)))

theorem recover_layerUrl {K ds : Str} (hK : ∀ c ∈ K, c ≠ '.')
    (hwf : WfLayerDigits ds) :
    recoverItemIdFromUrl (layerUrlOf K ds) = K := by
  obtain ⟨hmatch, hlen⟩ := layerUrlMatchLen_suffix hwf
  rw [recoverItemIdFromUrl, layerUrlOf]
  rw [replaceFirst_head_match [] (by decide) (startsWith_append_self _ _)
    (by simp)]
  rw [List.nil_append, List.drop_left]
  rw [removeFirst_append_of_clean _ hK]
  have h2 : removeFirstLayerUrlMatch
      (".layer".data ++ (ds ++ ".url\x7d\x7d".data)) = [] := by
    rw [show ".layer".data ++ (ds ++ ".url\x7d\x7d".data) =
        '.' :: ("layer".data ++ (ds ++ ".url\x7d\x7d".data)) from rfl]
    rw [removeFirstLayerUrlMatch]
    rw [show '.' :: ("layer".data ++ (ds ++ ".url\x7d\x7d".data)) =
        ".layer".data ++ (ds ++ ".url\x7d\x7d".data) from rfl]
    rw [hmatch]
    have hd : List.drop (12 + List.length ds)
        (".layer".data ++ (ds ++ ".url\x7d\x7d".data)) = [] :=
      List.drop_eq_nil_iff.mpr (le_of_eq hlen)
    simpa using hd
  rw [h2]
  simp

theorem takeWhile_all {p : Char → Bool} :
    ∀ l : Str, (∀ c ∈ l, p c = true) → l.takeWhile p = l
  | [], _ => rfl
  | c :: cs, h => by
    rw [List.takeWhile_cons, if_pos (h c (by simp))]
    rw [takeWhile_all cs (fun x hx => h x (by simp [hx]))]

theorem cleanLayerBasedItemId_id {K : Str}
    (h : ∀ c ∈ K, c ≠ '.' ∧ c ≠ '{' ∧ c ≠ '}') :
    cleanLayerBasedItemId K = K := by
  rw [cleanLayerBasedItemId]
  rw [List.filter_eq_self.mpr (fun c hc => by simp [(h c hc).2.1, (h c hc).2.2])]
  exact takeWhile_all K (fun c hc => by simp [(h c hc).1])

theorem containsSeg_of_startsWith {s pat : Str}
    (h : startsWith pat s = true) (hne : s ≠ []) :
    containsSeg s pat = true := by
  cases s with
  | nil => exact absurd rfl hne
  | cons c cs =>
    rw [containsSeg, h]
    simp

theorem attachStep_mono {ds : DatasourceInfo} {acc : List Str}
    {e : Str × OpLayerInfo} {a : Str} (h : a ∈ acc) :
    a ∈ attachStep ds acc e := by
  rw [attachStep]
  rcases he : (if e.1 = ds.itemId then some e.2 else none) with _ | oli
  · simpa using h
  · simp only []
    split
    · exact List.mem_append_left _ h
    · exact h

theorem attachFromLayerList_mono {ds : DatasourceInfo}
    {lts : List (Str × OpLayerInfo)} :
    ∀ {acc : List Str} {a : Str}, a ∈ acc →
      a ∈ attachFromLayerList ds lts acc := by
  induction lts with
  | nil => intro acc a h; simpa [attachFromLayerList] using h
  | cons e es ih =>
    intro acc a h
    rw [attachFromLayerList, List.foldl_cons]
    exact ih (attachStep_mono h)

theorem attachStep_self {ds : DatasourceInfo} {oli : OpLayerInfo}
    (acc : List Str) (hurl : oli.url = some (attachUrl ds)) :
    oli.id ∈ attachStep ds acc (ds.itemId, oli) := by
  rw [attachStep]
  have hsc : (if ((ds.itemId, oli) : Str × OpLayerInfo).1 = ds.itemId
      then some ((ds.itemId, oli) : Str × OpLayerInfo).2 else none) =
      some oli := if_pos rfl
  rw [hsc]
  show oli.id ∈
    (if oli.url = some (attachUrl ds) ∧ ¬ acc.contains oli.id = true
      then acc ++ [oli.id] else acc)
  by_cases hin : oli.id ∈ acc
  · by_cases hc : oli.url = some (attachUrl ds) ∧
        ¬ acc.contains oli.id = true
    · rw [if_pos hc]
      exact List.mem_append_left _ hin
    · rw [if_neg hc]
      exact hin
  · rw [if_pos (show oli.url = some (attachUrl ds) ∧
        ¬ acc.contains oli.id = true from ⟨hurl, by simpa using hin⟩)]
    simp

theorem attachFromLayerList_adds {ds : DatasourceInfo} {oli : OpLayerInfo}
    {lts : List (Str × OpLayerInfo)}
    (hmem : (ds.itemId, oli) ∈ lts)
    (hurl : oli.url = some (attachUrl ds)) :
    ∀ acc : List Str, oli.id ∈ attachFromLayerList ds lts acc := by
  induction lts with
  | nil => simp at hmem
  | cons e es ih =>
    intro acc
    rw [attachFromLayerList, List.foldl_cons]
    rcases List.mem_cons.mp hmem with heq | hmem2
    · rw [← heq]
      exact attachFromLayerList_mono (attachStep_self acc hurl)
    · exact ih hmem2 _

/-- C9 -/
theorem webmap_hash_records_and_attaches :
    (∀ layers tables : List MapLayer,
      updateWebMapHashInfo layers tables =
        (layers ++ tables).filterMap layerRecordOf) ∧
    (∀ (l : MapLayer) (it : Str), l.itemId = some it → it ≠ [] →
      layerRecordOf l =
        some (cleanLayerBasedItemId it, OpLayerInfo.mk l.id l.url)) ∧
    (∀ (l : MapLayer) (K ds : Str), l.itemId = none →
      l.url = some (layerUrlOf K ds) → K ≠ [] →
      (∀ c ∈ K, c ≠ '.' ∧ c ≠ '{' ∧ c ≠ '}') → WfLayerDigits ds →
      layerRecordOf l = some (K, OpLayerInfo.mk l.id l.url)) ∧
    (∀ (ds : DatasourceInfo) (K : Str),
      ds.url = some ("\x7b\x7b".data ++ (K ++ ".url\x7d\x7d".data)) →
      (∀ c ∈ K, c ≠ '.') →
      layerizedUrl ds = "\x7b\x7b".data ++ (K ++ (".layer".data ++
        (natToStr ds.layerId ++ ".url\x7d\x7d".data)))) ∧
    (∀ (ds : DatasourceInfo) (wmId : Str)
        (lts : List (Str × OpLayerInfo)) (oli : OpLayerInfo) (u : Str),
      ds.url = some u → (ds.itemId, oli) ∈ lts →
      oli.url = some (layerizedUrl ds) →
      ∃ ds2, addMapLayerIds [ds] [(wmId, HashEntry.mk "Web Map" lts)] =
          [ds2] ∧
        ds2.itemId = ds.itemId ∧ ds2.layerId = ds.layerId ∧
        oli.id ∈ ds2.ids) := by
  refine ⟨?_, ?_, ?_, ?_, ?_⟩
  · intro layers tables
    rw [updateWebMapHashInfo, foldl_hashPushStep_eq_filterMap]
    simp
  · intro l it hit hne
    rw [layerRecordOf]
    simp only [hit, jsTruthy, hne, if_pos]
    simp [hne]
  · intro l K ds hnone hurl hKne hK hwf
    rw [layerRecordOf]
    simp only [hnone, jsTruthy, hurl]
    have hcont : containsSeg (layerUrlOf K ds) "\x7b\x7b".data = true := by
      apply containsSeg_of_startsWith (startsWith_append_self _ _)
      simp [layerUrlOf]
    have hrec : recoverItemIdFromUrl (layerUrlOf K ds) = K :=
      recover_layerUrl (fun c hc => (hK c hc).1) hwf
    simp only [Bool.false_eq_true, if_false, hcont, if_true, hrec]
    rw [if_pos hKne]
    rw [cleanLayerBasedItemId_id hK]
  · intro ds K hurl hK
    have hred : layerizedUrl ds = replaceFirst ['.']
        ('.' :: "layer".data ++ natToStr ds.layerId ++ ['.'])
        ("\x7b\x7b".data ++ (K ++ ".url\x7d\x7d".data)) := by
      rw [layerizedUrl, hurl]
    have hshape : "\x7b\x7b".data ++ (K ++ ".url\x7d\x7d".data) =
        ("\x7b\x7b".data ++ K) ++ ('.' :: "url\x7d\x7d".data) := by
      simp [List.append_assoc]
    rw [hred, hshape]
    rw [replaceFirst_dot_of_clean _ _
      (fun c hc => by
        rcases List.mem_append.mp hc with h2 | h2
        · have h3 : c = '{' := by simpa using h2
          rw [h3]; decide
        · exact hK c h2)]
    simp [List.append_assoc]
  · intro ds wmId lts oli u hdsu hmem holi
    have hattach : attachUrl ds = layerizedUrl ds := by
      rw [attachUrl, hdsu]
      rfl
    have hres : addMapLayerIds [ds] [(wmId, HashEntry.mk "Web Map" lts)] =
        [{ ds with ids := attachFromLayerList ds lts ds.ids }] := by
      rw [addMapLayerIds]
      simp [attachFromLayerList]
    refine ⟨_, hres, rfl, rfl, ?_⟩
    exact attachFromLayerList_adds hmem (by rw [hattach, holi]) ds.ids

def wmLayer1 : MapLayer :=
  MapLayer.mk (some "itm9".data) (some "u".data) "L1".data

def wmLayer2 : MapLayer :=
  MapLayer.mk none (some (layerUrlOf "fs1".data ['3'])) "L2".data

def dsW : DatasourceInfo :=
  DatasourceInfo.mk "fs1".data 3
    (some ("\x7b\x7b".data ++ ("fs1".data ++ ".url\x7d\x7d".data))) []

def oliW : OpLayerInfo := OpLayerInfo.mk "L2".data (some (layerizedUrl dsW))

/-- Witness for C9: a layer with an itemId and a layer referencing
feature service fs1 through the templatized url
\x7b\x7bfs1.layer3.url\x7d\x7d are both recorded, and the recorded
in-map id L2 is attached to the datasource info of fs1 layer 3. -/
theorem webmap_hash_witness_c9 :
    (WfLayerDigits ['3'] ∧ wmLayer2.itemId = none) ∧
      updateWebMapHashInfo [wmLayer1, wmLayer2] [] =
        ([wmLayer1, wmLayer2] ++ ([] : List MapLayer)).filterMap
          layerRecordOf ∧
      layerRecordOf wmLayer1 =
        some (cleanLayerBasedItemId "itm9".data,
          OpLayerInfo.mk wmLayer1.id wmLayer1.url) ∧
      layerRecordOf wmLayer2 =
        some ("fs1".data, OpLayerInfo.mk wmLayer2.id wmLayer2.url) ∧
      (∃ ds2, addMapLayerIds [dsW]
          [("wm1".data, HashEntry.mk "Web Map" [("fs1".data, oliW)])] =
          [ds2] ∧
        ds2.itemId = dsW.itemId ∧ ds2.layerId = dsW.layerId ∧
        oliW.id ∈ ds2.ids) := by
  have hwf : WfLayerDigits ['3'] := Or.inl ⟨'3', rfl, by decide⟩
  refine ⟨⟨hwf, rfl⟩, ?_, ?_, ?_, ?_⟩
  · exact webmap_hash_records_and_attaches.1 [wmLayer1, wmLayer2] []
  · exact webmap_hash_records_and_attaches.2.1 wmLayer1 "itm9".data rfl
      (by decide)
  · exact webmap_hash_records_and_attaches.2.2.1 wmLayer2 "fs1".data ['3']
      rfl rfl (by decide) (by decide) hwf
  · exact webmap_hash_records_and_attaches.2.2.2.2 dsW "wm1".data
      [("fs1".data, oliW)] oliW
      ("\x7b\x7b".data ++ ("fs1".data ++ ".url\x7d\x7d".data)) rfl
      (by simp [dsW, oliW]) rfl


end SolutionJS
